import Mathlib

/-!
Verification development for the CRcrawler repository.

The development shallowly embeds the two source files:

* `crawler.py` — the `MultiLanguageSemanticAnalyzer` (per-language lexical
  rules applied to unified-diff hunks and raw file content) and the
  `MultiLanguageGitHubPRCrawler` control flow (request retry protocol,
  pull-request enumeration with skip heuristics, resumption set, and the
  per-repository completion logic).
* `jsonl_to_sqlite.py` — the relational materializer (lookup-or-insert for
  dimension rows, plain inserts for fact rows, orphan dropping).

Python regular-expression matching (`re.search` / `re.match`) is embedded by
a small backtracking engine over an explicit pattern AST; each pattern
string appearing in the source is transliterated into that AST.  Network
and filesystem effects are modelled by explicit oracles: a function under
test consumes the list of responses the transport layer would have
produced, and emits an explicit trace of records or actions.
-/

/-! ## Regular-expression engine

Pattern AST mirroring the constructs used by the regexes in `crawler.py`:
literal characters, character classes, `.` (any char except newline),
anchors `^` and `$` (non-multiline Python semantics), concatenation,
alternation (leftmost preference), greedy and lazy repetition, and
capturing groups.  Matching is by depth-first backtracking in
continuation-passing style, which is exactly Python's leftmost,
greedy-first search order for these patterns; a fuel argument makes the
recursion structural (the fuel computed by `fuelFor` below always exceeds
the call depth because every repetition step must consume a character). -/
inductive Re where
  | eps : Re
  | ch (c : Char) : Re
  | cls (p : Char → Bool) : Re
  | dot : Re
  | sol : Re
  | eol : Re
  | seq (a b : Re) : Re
  | alt (a b : Re) : Re
  | star (greedy : Bool) (r : Re) : Re
  | group (i : Nat) (r : Re) : Re

/-- Captured groups: group index paired with the captured characters.
Later (more recent) entries shadow earlier ones, as in Python where a
repeated group keeps its last capture. -/
abbrev Caps := List (Nat × List Char)

def Re.size : Re → Nat
  | .eps => 1
  | .ch _ => 1
  | .cls _ => 1
  | .dot => 1
  | .sol => 1
  | .eol => 1
  | .seq a b => a.size + b.size + 1
  | .alt a b => a.size + b.size + 1
  | .star _ r => r.size + 1
  | .group _ r => r.size + 1

/-- Number of capturing groups in a pattern (what `len(match.groups())`
returns in Python: the group count of the pattern, matched or not). -/
def Re.groupCount : Re → Nat
  | .eps => 0
  | .ch _ => 0
  | .cls _ => 0
  | .dot => 0
  | .sol => 0
  | .eol => 0
  | .seq a b => a.groupCount + b.groupCount
  | .alt a b => a.groupCount + b.groupCount
  | .star _ r => r.groupCount
  | .group _ r => r.groupCount + 1

/-- Core matcher.  `flen` is the length of the whole subject (so `^` can
recognise position 0), `rem` the remaining input, `k` the continuation run
on what is left after the node matches.  A repetition only loops when its
body consumed at least one character, matching Python's refusal to repeat
an empty match. -/
def matRe (flen : Nat) : Nat → Re → List Char → Caps →
    (List Char → Caps → Option Caps) → Option Caps
  | 0, _, _, _, _ => none
  | Nat.succ f, re, rem, caps, k =>
    match re with
    | .eps => k rem caps
    | .ch c =>
      match rem with
      | [] => none
      | x :: xs => if x = c then k xs caps else none
    | .cls p =>
      match rem with
      | [] => none
      | x :: xs => if p x then k xs caps else none
    | .dot =>
      match rem with
      | [] => none
      | x :: xs => if x = '\n' then none else k xs caps
    | .sol => if rem.length = flen then k rem caps else none
    | .eol => if rem = [] ∨ rem = ['\n'] then k rem caps else none
    | .seq a b =>
      matRe flen f a rem caps (fun r2 c2 => matRe flen f b r2 c2 k)
    | .alt a b =>
      match matRe flen f a rem caps k with
      | some res => some res
      | none => matRe flen f b rem caps k
    | .star g r =>
      let once := matRe flen f r rem caps (fun r2 c2 =>
        if r2.length < rem.length then matRe flen f (.star g r) r2 c2 k
        else none)
      if g then
        match once with
        | some res => some res
        | none => k rem caps
      else
        match k rem caps with
        | some res => some res
        | none => once
    | .group i r =>
      matRe flen f r rem caps (fun r2 c2 =>
        k r2 ((i, rem.take (rem.length - r2.length)) :: c2))

def fuelFor (re : Re) (subject : List Char) : Nat :=
  (re.size + 2) * (subject.length + 2)

/-- Try the pattern at every start position, leftmost first
(`re.search` semantics). -/
def searchAux (flen fuel : Nat) (re : Re) : List Char → Option Caps
  | [] => matRe flen fuel re [] [] (fun _ c => some c)
  | x :: xs =>
    match matRe flen fuel re (x :: xs) [] (fun _ c => some c) with
    | some c => some c
    | none => searchAux flen fuel re xs

/-- Python `re.search(pattern, s)`: `some caps` iff the pattern matches
somewhere in `s`. -/
def reSearch (re : Re) (s : String) : Option Caps :=
  searchAux s.data.length (fuelFor re s.data) re s.data

/-- Python `re.match(pattern, s)`: anchored at the start of `s`. -/
def reMatch (re : Re) (s : String) : Option Caps :=
  matRe s.data.length (fuelFor re s.data) re s.data [] (fun _ c => some c)

/-- `match.group(i)` as an optional string (`none` when the group did not
participate in the match). -/
def capStr (caps : Caps) (i : Nat) : Option String :=
  (caps.find? (fun p => p.1 = i)).map (fun p => String.mk p.2)

/-- `match.groups()`: all groups `1..gc` in order. -/
def capGroups (caps : Caps) (gc : Nat) : List (Option String) :=
  (List.range gc).map (fun i => capStr caps (i + 1))

/-! ### Pattern building blocks -/

def rstr (s : String) : Re := s.data.foldr (fun c acc => Re.seq (.ch c) acc) .eps

def rcat (l : List Re) : Re := l.foldr Re.seq .eps

def ralts : List Re → Re
  | [] => .eps
  | [r] => r
  | r :: rs => .alt r (ralts rs)

def rplus (r : Re) : Re := .seq r (.star true r)

def rplusLazy (r : Re) : Re := .seq r (.star false r)

def ropt (r : Re) : Re := .alt r .eps

/-- ASCII approximation of Python `\s`. -/
def isSpaceP (c : Char) : Bool :=
  c = ' ' || c = '\t' || c = '\n' || c = '\r' || c = '\x0b' || c = '\x0c'

/-- ASCII approximation of Python `\w`: `[a-zA-Z0-9_]`. -/
def isWordP (c : Char) : Bool := c.isAlphanum || c = '_'

/-- Character class `[a-zA-Z_]`. -/
def isIdentStart (c : Char) : Bool := c.isAlpha || c = '_'

/-- Character class `[a-zA-Z0-9_]`. -/
def isIdentChar (c : Char) : Bool := c.isAlphanum || c = '_'

/-- Character class `[a-zA-Z_$]` (JavaScript identifiers). -/
def isIdentStartD (c : Char) : Bool := c.isAlpha || c = '_' || c = '$'

/-- Character class `[a-zA-Z0-9_$]`. -/
def isIdentCharD (c : Char) : Bool := c.isAlphanum || c = '_' || c = '$'

def rws : Re := .cls isSpaceP
def rdigit : Re := .cls Char.isDigit

/-- `[a-zA-Z_][a-zA-Z0-9_]*` as a capturing group `i`. -/
def rident (i : Nat) : Re := .group i (.seq (.cls isIdentStart) (.star true (.cls isIdentChar)))

/-- `[a-zA-Z_$][a-zA-Z0-9_$]*` as a capturing group `i`. -/
def ridentD (i : Nat) : Re := .group i (.seq (.cls isIdentStartD) (.star true (.cls isIdentCharD)))

/-- Ungrouped `[a-zA-Z_][a-zA-Z0-9_]*`. -/
def ridentU : Re := .seq (.cls isIdentStart) (.star true (.cls isIdentChar))

/-! ## LANGUAGE_CONFIG

Transliteration of `MultiLanguageSemanticAnalyzer.LANGUAGE_CONFIG`:
for each language, the file extensions and the ordered import / function /
class / comment pattern lists.  Each `Re` value below transliterates the
pattern string quoted in its comment. -/

structure LangCfg where
  fileExtensions : List String
  importPatterns : List Re
  functionPatterns : List Re
  classPatterns : List Re
  commentPatterns : List Re

/-- Quote or apostrophe, the class written as ["\'] in the source. -/
def isQuoteJs (c : Char) : Bool := c = '"' || c = '\''

def openBrace : Char := Char.ofNat 123
def closeBrace : Char := Char.ofNat 125

/-- Python pattern 1: `^\s*import\s+(.+)` -/
def pyImport1 : Re :=
  rcat [.sol, .star true rws, rstr ("import"), rplus rws, .group 1 (rplus .dot)]

/-- Python pattern 2: `^\s*from\s+([^\s]+)\s+import\s+(.+)` -/
def pyImport2 : Re :=
  rcat [.sol, .star true rws, rstr ("from"), rplus rws,
    .group 1 (rplus (.cls (fun c => !isSpaceP c))), rplus rws,
    rstr ("import"), rplus rws, .group 2 (rplus .dot)]

/-- Python function pattern: `def\s+([a-zA-Z_][a-zA-Z0-9_]*)\s*\(` -/
def pyFun1 : Re :=
  rcat [rstr ("def"), rplus rws, rident 1, .star true rws, .ch '(']

/-- Python class pattern: `class\s+([a-zA-Z_][a-zA-Z0-9_]*)\s*[\(:]` -/
def pyClass1 : Re :=
  rcat [rstr ("class"), rplus rws, rident 1, .star true rws,
    .cls (fun c => c = '(' || c = ':')]

/-- Python comment pattern 1: `#.*$` -/
def pyComment1 : Re := rcat [.ch '#', .star true .dot, .eol]

/-- Python comment pattern 2: `""".*?"""` -/
def pyComment2 : Re := rcat [rstr ("\"\"\""), .star false .dot, rstr ("\"\"\"")]

/-- Python comment pattern 3: `'''.*?'''` -/
def pyComment3 : Re :=
  rcat [.ch '\'', .ch '\'', .ch '\'', .star false .dot, .ch '\'', .ch '\'', .ch '\'']

def pythonConfig : LangCfg where
  fileExtensions := [".py"]
  importPatterns := [pyImport1, pyImport2]
  functionPatterns := [pyFun1]
  classPatterns := [pyClass1]
  commentPatterns := [pyComment1, pyComment2, pyComment3]

/-- JS/TS import pattern: `^\s*import\s+(.+?)\s+from\s+["\']([^"\']+)["\']` -/
def jsImport1 : Re :=
  rcat [.sol, .star true rws, rstr ("import"), rplus rws,
    .group 1 (rplusLazy .dot), rplus rws, rstr ("from"), rplus rws,
    .cls isQuoteJs, .group 2 (rplus (.cls (fun c => !isQuoteJs c))), .cls isQuoteJs]

/-- JS/TS import pattern: `^\s*import\s+["\']([^"\']+)["\']` -/
def jsImport2 : Re :=
  rcat [.sol, .star true rws, rstr ("import"), rplus rws,
    .cls isQuoteJs, .group 1 (rplus (.cls (fun c => !isQuoteJs c))), .cls isQuoteJs]

/-- JS import pattern: `^\s*const\s+(.+?)\s*=\s*require\s*\(\s*["\']([^"\']+)["\']\s*\)` -/
def jsImport3 : Re :=
  rcat [.sol, .star true rws, rstr ("const"), rplus rws,
    .group 1 (rplusLazy .dot), .star true rws, .ch '=', .star true rws,
    rstr ("require"), .star true rws, .ch '(', .star true rws,
    .cls isQuoteJs, .group 2 (rplus (.cls (fun c => !isQuoteJs c))), .cls isQuoteJs,
    .star true rws, .ch ')']

/-- JS import pattern: `^\s*require\s*\(\s*["\']([^"\']+)["\']\s*\)` -/
def jsImport4 : Re :=
  rcat [.sol, .star true rws, rstr ("require"), .star true rws, .ch '(',
    .star true rws, .cls isQuoteJs,
    .group 1 (rplus (.cls (fun c => !isQuoteJs c))), .cls isQuoteJs,
    .star true rws, .ch ')']

/-- TS import pattern: `^\s*import\s+type\s+(.+?)\s+from\s+["\']([^"\']+)["\']` -/
def tsImport3 : Re :=
  rcat [.sol, .star true rws, rstr ("import"), rplus rws, rstr ("type"),
    rplus rws, .group 1 (rplusLazy .dot), rplus rws, rstr ("from"), rplus rws,
    .cls isQuoteJs, .group 2 (rplus (.cls (fun c => !isQuoteJs c))), .cls isQuoteJs]

/-- JS/TS function pattern: `function\s+([a-zA-Z_$][a-zA-Z0-9_$]*)\s*\(` -/
def jsFun1 : Re :=
  rcat [rstr ("function"), rplus rws, ridentD 1, .star true rws, .ch '(']

/-- JS/TS function pattern: `const\s+([a-zA-Z_$][a-zA-Z0-9_$]*)\s*=\s*\(` -/
def jsFun2 : Re :=
  rcat [rstr ("const"), rplus rws, ridentD 1, .star true rws, .ch '=',
    .star true rws, .ch '(']

/-- JS/TS function pattern: `([a-zA-Z_$][a-zA-Z0-9_$]*)\s*:\s*function\s*\(` -/
def jsFun3 : Re :=
  rcat [ridentD 1, .star true rws, .ch ':', .star true rws, rstr ("function"),
    .star true rws, .ch '(']

/-- JS/TS function pattern: `([a-zA-Z_$][a-zA-Z0-9_$]*)\s*\([^)]*\)\s*=>` -/
def jsFun4 : Re :=
  rcat [ridentD 1, .star true rws, .ch '(', .star true (.cls (fun c => c ≠ ')')),
    .ch ')', .star true rws, rstr ("=>")]

/-- JS class pattern: `class\s+([a-zA-Z_$][a-zA-Z0-9_$]*)\s*[{(]` -/
def jsClass1 : Re :=
  rcat [rstr ("class"), rplus rws, ridentD 1, .star true rws,
    .cls (fun c => c = openBrace || c = '(')]

def javascriptConfig : LangCfg where
  fileExtensions := [".js", ".jsx", ".ts", ".tsx"]
  importPatterns := [jsImport1, jsImport2, jsImport3, jsImport4]
  functionPatterns := [jsFun1, jsFun2, jsFun3, jsFun4]
  classPatterns := [jsClass1]
  commentPatterns := [rcat [.ch '/', .ch '/', .star true .dot, .eol],
    rcat [.ch '/', .ch '*', .star false .dot, .ch '*', .ch '/']]

/-- Java import pattern: `^\s*import\s+(?:static\s+)?([^;]+);` -/
def javaImport1 : Re :=
  rcat [.sol, .star true rws, rstr ("import"), rplus rws,
    ropt (rcat [rstr ("static"), rplus rws]),
    .group 1 (rplus (.cls (fun c => c ≠ ';'))), .ch ';']

/-- Java function pattern:
`(?:public|private|protected|static|\s)*\s+\w+\s+([a-zA-Z_][a-zA-Z0-9_]*)\s*\(` -/
def javaFun1 : Re :=
  rcat [.star true (ralts [rstr ("public"), rstr ("private"),
      rstr ("protected"), rstr ("static"), rws]),
    rplus rws, rplus (.cls isWordP), rplus rws, rident 1, .star true rws, .ch '(']

/-- Java class pattern:
`(?:public|private|protected|abstract|final|\s)*\s*class\s+([a-zA-Z_][a-zA-Z0-9_]*)\s*[{<]` -/
def javaClass1 : Re :=
  rcat [.star true (ralts [rstr ("public"), rstr ("private"),
      rstr ("protected"), rstr ("abstract"), rstr ("final"), rws]),
    .star true rws, rstr ("class"), rplus rws, rident 1, .star true rws,
    .cls (fun c => c = openBrace || c = '<')]

def javaConfig : LangCfg where
  fileExtensions := [".java"]
  importPatterns := [javaImport1]
  functionPatterns := [javaFun1]
  classPatterns := [javaClass1]
  commentPatterns := [rcat [.ch '/', .ch '/', .star true .dot, .eol],
    rcat [.ch '/', .ch '*', .star false .dot, .ch '*', .ch '/']]

/-- Go import pattern: `^\s*import\s+"([^"]+)"` -/
def goImport1 : Re :=
  rcat [.sol, .star true rws, rstr ("import"), rplus rws, .ch '"',
    .group 1 (rplus (.cls (fun c => c ≠ '"'))), .ch '"']

/-- Go import pattern: `^\s*import\s+([a-zA-Z_][a-zA-Z0-9_]*)\s+"([^"]+)"` -/
def goImport2 : Re :=
  rcat [.sol, .star true rws, rstr ("import"), rplus rws, rident 1, rplus rws,
    .ch '"', .group 2 (rplus (.cls (fun c => c ≠ '"'))), .ch '"']

/-- Go import pattern: `^\s*import\s+\(\s*\n((?:\s*"[^"]+"\s*\n)*)\s*\)` -/
def goImport3 : Re :=
  rcat [.sol, .star true rws, rstr ("import"), rplus rws, .ch '(',
    .star true rws, .ch '\n',
    .group 1 (.star true (rcat [.star true rws, .ch '"',
      rplus (.cls (fun c => c ≠ '"')), .ch '"', .star true rws, .ch '\n'])),
    .star true rws, .ch ')']

/-- Go function pattern: `func\s+([a-zA-Z_][a-zA-Z0-9_]*)\s*\(` -/
def goFun1 : Re :=
  rcat [rstr ("func"), rplus rws, rident 1, .star true rws, .ch '(']

/-- Go function pattern: `func\s+\([^)]*\)\s+([a-zA-Z_][a-zA-Z0-9_]*)\s*\(` -/
def goFun2 : Re :=
  rcat [rstr ("func"), rplus rws, .ch '(', .star true (.cls (fun c => c ≠ ')')),
    .ch ')', rplus rws, rident 1, .star true rws, .ch '(']

/-- Go struct pattern: `type\s+([a-zA-Z_][a-zA-Z0-9_]*)\s+struct\s*{` -/
def goClass1 : Re :=
  rcat [rstr ("type"), rplus rws, rident 1, rplus rws, rstr ("struct"),
    .star true rws, .ch openBrace]

def golangConfig : LangCfg where
  fileExtensions := [".go"]
  importPatterns := [goImport1, goImport2, goImport3]
  functionPatterns := [goFun1, goFun2]
  classPatterns := [goClass1]
  commentPatterns := [rcat [.ch '/', .ch '/', .star true .dot, .eol],
    rcat [.ch '/', .ch '*', .star false .dot, .ch '*', .ch '/']]

/-- C++ include pattern: `^\s*#include\s*<([^>]+)>` -/
def cppImport1 : Re :=
  rcat [.sol, .star true rws, .ch '#', rstr ("include"), .star true rws, .ch '<',
    .group 1 (rplus (.cls (fun c => c ≠ '>'))), .ch '>']

/-- C++ include pattern: `^\s*#include\s*"([^"]+)"` -/
def cppImport2 : Re :=
  rcat [.sol, .star true rws, .ch '#', rstr ("include"), .star true rws, .ch '"',
    .group 1 (rplus (.cls (fun c => c ≠ '"'))), .ch '"']

/-- C++ using pattern: `^\s*using\s+namespace\s+([^;]+);` -/
def cppImport3 : Re :=
  rcat [.sol, .star true rws, rstr ("using"), rplus rws, rstr ("namespace"),
    rplus rws, .group 1 (rplus (.cls (fun c => c ≠ ';'))), .ch ';']

/-- C++ function pattern:
`(?:inline\s+)?(?:static\s+)?(?:virtual\s+)?(?:const\s+)?\w+\s+([a-zA-Z_][a-zA-Z0-9_]*)\s*\(` -/
def cppFun1 : Re :=
  rcat [ropt (rcat [rstr ("inline"), rplus rws]),
    ropt (rcat [rstr ("static"), rplus rws]),
    ropt (rcat [rstr ("virtual"), rplus rws]),
    ropt (rcat [rstr ("const"), rplus rws]),
    rplus (.cls isWordP), rplus rws, rident 1, .star true rws, .ch '(']

/-- C++ function pattern: `([a-zA-Z_][a-zA-Z0-9_]*)::[a-zA-Z_][a-zA-Z0-9_]*\s*\(` -/
def cppFun2 : Re :=
  rcat [rident 1, .ch ':', .ch ':', ridentU, .star true rws, .ch '(']

/-- C++ class pattern: `class\s+([a-zA-Z_][a-zA-Z0-9_]*)\s*[{:]` -/
def cppClass1 : Re :=
  rcat [rstr ("class"), rplus rws, rident 1, .star true rws,
    .cls (fun c => c = openBrace || c = ':')]

/-- C++ struct pattern: `struct\s+([a-zA-Z_][a-zA-Z0-9_]*)\s*[{:]` -/
def cppClass2 : Re :=
  rcat [rstr ("struct"), rplus rws, rident 1, .star true rws,
    .cls (fun c => c = openBrace || c = ':')]

def cppConfig : LangCfg where
  fileExtensions := [".cpp", ".cc", ".cxx", ".c++", ".hpp", ".h"]
  importPatterns := [cppImport1, cppImport2, cppImport3]
  functionPatterns := [cppFun1, cppFun2]
  classPatterns := [cppClass1, cppClass2]
  commentPatterns := [rcat [.ch '/', .ch '/', .star true .dot, .eol],
    rcat [.ch '/', .ch '*', .star false .dot, .ch '*', .ch '/']]

/-- TS class pattern: `class\s+([a-zA-Z_$][a-zA-Z0-9_$]*)\s*[{<]` -/
def tsClass1 : Re :=
  rcat [rstr ("class"), rplus rws, ridentD 1, .star true rws,
    .cls (fun c => c = openBrace || c = '<')]

/-- TS interface pattern: `interface\s+([a-zA-Z_$][a-zA-Z0-9_$]*)\s*[{<]` -/
def tsClass2 : Re :=
  rcat [rstr ("interface"), rplus rws, ridentD 1, .star true rws,
    .cls (fun c => c = openBrace || c = '<')]

def typescriptConfig : LangCfg where
  fileExtensions := [".ts", ".tsx"]
  importPatterns := [jsImport1, jsImport2, tsImport3]
  functionPatterns := [jsFun1, jsFun2, jsFun3, jsFun4]
  classPatterns := [tsClass1, tsClass2]
  commentPatterns := [rcat [.ch '/', .ch '/', .star true .dot, .eol],
    rcat [.ch '/', .ch '*', .star false .dot, .ch '*', .ch '/']]

/-- The `LANGUAGE_CONFIG` dictionary, in its insertion order. -/
def languageConfig : List (String × LangCfg) :=
  [("python", pythonConfig), ("javascript", javascriptConfig),
   ("java", javaConfig), ("golang", golangConfig), ("cpp", cppConfig),
   ("typescript", typescriptConfig)]

/-- `language in LANGUAGE_CONFIG` lookup. -/
def langCfg? (language : String) : Option LangCfg :=
  (languageConfig.find? (fun p => p.1 = language)).map (fun p => p.2)

/-! ## Python string helpers -/

/-- `str.strip()` on a character list (whitespace from both ends). -/
def pyStrip (l : List Char) : List Char :=
  ((l.dropWhile isSpaceP).reverse.dropWhile isSpaceP).reverse

/-- `str.strip()` on a `String`. -/
def pyStripS (s : String) : String := String.mk (pyStrip s.data)

/-- Python substring containment helper for matching a needle at the head. -/
def leadEq : List Char → List Char → Bool
  | [], _ => true
  | _ :: _, [] => false
  | a :: as, b :: bs => a = b && leadEq as bs

/-- Python `needle in hay` substring test. -/
def hasSub (hay : List Char) (needle : List Char) : Bool :=
  match hay with
  | [] => leadEq needle []
  | _ :: t => leadEq needle hay || hasSub t needle

/-- `needle in hay` on strings. -/
def hasSubS (hay needle : String) : Bool := hasSub hay.data needle.data

/-- Python `str.split(sep)` on a character list (Lean's own string split
has the same semantics but does not reduce inside the kernel). -/
def splitOnChar (sep : Char) : List Char → List (List Char)
  | [] => [[]]
  | c :: rest =>
    let r := splitOnChar sep rest
    if c = sep then [] :: r
    else
      match r with
      | [] => [[c]]
      | h :: t => (c :: h) :: t

/-- `content.split('\n')` as a list of strings. -/
def pyLines (s : String) : List String := (splitOnChar '\n' s.data).map String.mk

/-- `line.split(',')` as a list of strings. -/
def pyCommaSplit (s : String) : List String :=
  (splitOnChar ',' s.data).map String.mk

/-- `s.startswith(pre)` (kernel-reducible). -/
def strStartsWith (s pre : String) : Bool := leadEq pre.data s.data

/-! ## parse_diff_hunks -/

/-- One hunk record, as built by `parse_diff_hunks`. -/
structure Hunk where
  old_start : Nat
  old_count : Nat
  new_start : Nat
  new_count : Nat
  context : String
  changes : List String
deriving DecidableEq, Repr

/-- The hunk header pattern `@@ -(\d+),?(\d+)? \+(\d+),?(\d+)? @@(.+)?`. -/
def hunkHeaderRe : Re :=
  rcat [rstr ("@@ -"), .group 1 (rplus rdigit), ropt (.ch ','),
    ropt (.group 2 (rplus rdigit)), .ch ' ', .ch '+', .group 3 (rplus rdigit),
    ropt (.ch ','), ropt (.group 4 (rplus rdigit)), .ch ' ', rstr ("@@"),
    ropt (.group 5 (rplus .dot))]

/-- `int(...)` on the digit strings the header regex captures. -/
def digitsToNat (s : String) : Nat :=
  s.data.foldl (fun acc c => acc * 10 + (c.toNat - 48)) 0

/-- `int(match.group(i) or 1)` for the optional count groups. -/
def countOrOne (g : Option String) : Nat :=
  match g with
  | some s => digitsToNat s
  | none => 1

/-- Append a change line to the current hunk.  In the source,
`current_hunk` is the dictionary most recently appended to `hunks` (it is
created and appended in the same step and never reset), so mutating it is
mutating the last element of the list. -/
def appendToLast (hunks : List Hunk) (line : String) : List Hunk :=
  match hunks with
  | [] => []
  | [h] => [{ h with changes := h.changes ++ [line] }]
  | h :: t => h :: appendToLast t line

/-- One iteration of the line loop in `parse_diff_hunks`. -/
def parseDiffStep (hunks : List Hunk) (line : String) : List Hunk :=
  if strStartsWith line ("@@") then
    match reMatch hunkHeaderRe line with
    | some caps =>
      hunks ++ [{
        old_start := digitsToNat ((capStr caps 1).getD (""))
        old_count := countOrOne (capStr caps 2)
        new_start := digitsToNat ((capStr caps 3).getD (""))
        new_count := countOrOne (capStr caps 4)
        context := pyStripS ((capStr caps 5).getD (""))
        changes := [] }]
    | none => hunks
  else if hunks ≠ [] ∧ (strStartsWith line ("+") ∨ strStartsWith line ("-") ∨
      strStartsWith line (" ")) then
    appendToLast hunks line
  else hunks

/-- `parse_diff_hunks` on an explicit line list. -/
def parseHunksLines (lines : List String) : List Hunk :=
  lines.foldl parseDiffStep []

/-- `MultiLanguageSemanticAnalyzer.parse_diff_hunks`. -/
def parse_diff_hunks (patch_content : String) : List Hunk :=
  parseHunksLines (pyLines patch_content)

/-! ## detect_function_changes / detect_class_changes -/

/-- A function- or class-change fact.  `detect_class_changes` uses the field
name `class_name` instead of `function_name`; both are modelled by `name`. -/
structure ChangeFact where
  name : String
  change_type : String
  line_content : String
  source : String
  language : String
deriving DecidableEq, Repr

/-- The dedup key `f"{name}_{language}"`. -/
def factKey (f : ChangeFact) : String := f.name ++ "_" ++ f.language

/-- Fact collection over one hunk: first the context facts (one per
matching pattern, change type `modified`, source `context`), then one fact
per matching pattern per `+`/`-` change line (source `diff_content`). -/
def hunkFacts (patterns : List Re) (language : String) (h : Hunk) :
    List ChangeFact :=
  (patterns.filterMap (fun p =>
    (reSearch p h.context).map (fun caps =>
      { name := (capStr caps 1).getD ("")
        change_type := "modified"
        line_content := pyStripS h.context
        source := "context"
        language := language }))) ++
  (h.changes.map (fun line =>
    if strStartsWith line ("+") ∨ strStartsWith line ("-") then
      patterns.filterMap (fun p =>
        (reSearch p line).map (fun caps =>
          { name := (capStr caps 1).getD ("")
            change_type := if strStartsWith line ("+") then "added" else "removed"
            line_content := pyStripS (String.mk (line.data.drop 1))
            source := "diff_content"
            language := language }))
    else [])).flatten

/-- All facts collected over the hunks of a patch, before deduplication. -/
def collectFacts (patterns : List Re) (language : String) (patch : String) :
    List ChangeFact :=
  ((parse_diff_hunks patch).map (hunkFacts patterns language)).flatten

/-- One step of the dedup loop: `unique[key] = func` when the key is new,
otherwise replace only when the incoming fact's source is `diff_content`.
The association list keeps dict insertion order; replacement keeps the
key's original position, as a Python dict does. -/
def dedupStep (d : List (String × ChangeFact)) (f : ChangeFact) :
    List (String × ChangeFact) :=
  if (d.find? (fun p => p.1 = factKey f)).isSome then
    if f.source = "diff_content" then
      d.map (fun p => if p.1 = factKey f then (p.1, f) else p)
    else d
  else d ++ [(factKey f, f)]

/-- The dedup pass and `list(unique.values())`. -/
def dedupFacts (facts : List ChangeFact) : List ChangeFact :=
  (facts.foldl dedupStep []).map (fun p => p.2)

/-- Facts collected by `detect_function_changes` before its dedup pass. -/
def functionFactsCollected (patch language : String) : List ChangeFact :=
  match langCfg? language with
  | none => []
  | some cfg => collectFacts cfg.functionPatterns language patch

/-- Facts collected by `detect_class_changes` before its dedup pass. -/
def classFactsCollected (patch language : String) : List ChangeFact :=
  match langCfg? language with
  | none => []
  | some cfg => collectFacts cfg.classPatterns language patch

/-- `MultiLanguageSemanticAnalyzer.detect_function_changes`. -/
def detect_function_changes (patch language : String) : List ChangeFact :=
  match langCfg? language with
  | none => []
  | some cfg => dedupFacts (collectFacts cfg.functionPatterns language patch)

/-- `MultiLanguageSemanticAnalyzer.detect_class_changes`. -/
def detect_class_changes (patch language : String) : List ChangeFact :=
  match langCfg? language with
  | none => []
  | some cfg => dedupFacts (collectFacts cfg.classPatterns language patch)

/-! ## extract_imports -/

/-- Value stored under `imported_items`: the key can be absent, set to
`None`, set to a list of strings (Python), or set to a plain string
(JavaScript / TypeScript). -/
inductive ItemsVal where
  | absent : ItemsVal
  | null : ItemsVal
  | listVal (xs : List String) : ItemsVal
  | strVal (s : String) : ItemsVal
deriving DecidableEq, Repr

/-- One record produced by `extract_imports`.  `import_type` and
`module_name` are `none` when the corresponding dictionary key was never
set. -/
structure ImportFact where
  language : String
  line_number : Nat
  import_statement : String
  match_groups : List (Option String)
  import_type : Option String := none
  module_name : Option String := none
  imported_items : ItemsVal := .absent
deriving DecidableEq, Repr

/-- `match.group(i)` with Python's IndexError on a group number larger than
the pattern's group count (modelled as `Except.error`). -/
def groupAt (caps : Caps) (gc i : Nat) : Except Unit (Option String) :=
  if i ≤ gc then .ok (capStr caps i) else .error ()

/-- The language-specific decomposition block of `extract_imports`,
applied to the first matching pattern's captures.  `Except.error` models an
uncaught Python exception (IndexError from `match.group`, AttributeError
from calling a string method on `None`). -/
def decomposeImport (language : String) (stripped : String) (lineNum : Nat)
    (caps : Caps) (gc : Nat) : Except Unit ImportFact := do
  let base : ImportFact :=
    { language := language, line_number := lineNum,
      import_statement := stripped, match_groups := capGroups caps gc }
  if language = "python" then
    if hasSubS stripped ("from") then
      let g2 ← groupAt caps gc 2
      match g2 with
      | none => .error ()
      | some items =>
        .ok { base with
          import_type := some ("from_import")
          module_name := capStr caps 1
          imported_items := .listVal ((pyCommaSplit items).map pyStripS) }
    else
      .ok { base with
        import_type := some ("import")
        module_name := capStr caps 1
        imported_items := .null }
  else if language = "javascript" ∨ language = "typescript" then
    if hasSubS stripped ("from") then
      let g2 ← groupAt caps gc 2
      match capStr caps 1 with
      | none => .error ()
      | some items =>
        .ok { base with
          import_type := some ("es6_import")
          imported_items := .strVal (pyStripS items)
          module_name := g2 }
    else if hasSubS stripped ("require") then
      if gc = 1 then
        .ok { base with
          import_type := some ("require")
          module_name := capStr caps 1 }
      else
        let g2 ← groupAt caps gc 2
        .ok { base with import_type := some ("require"), module_name := g2 }
    else .ok base
  else if language = "java" then
    .ok { base with import_type := some ("import"), module_name := capStr caps 1 }
  else if language = "golang" then
    .ok { base with import_type := some ("import"), module_name := capStr caps 1 }
  else if language = "cpp" then
    if hasSubS stripped ("<") then
      .ok { base with
        import_type := some ("system_include")
        module_name := capStr caps 1 }
    else if hasSubS stripped ("\"") then
      .ok { base with
        import_type := some ("local_include")
        module_name := capStr caps 1 }
    else if hasSubS stripped ("using") then
      .ok { base with
        import_type := some ("using_namespace")
        module_name := capStr caps 1 }
    else .ok base
  else .ok base

/-- `any(re.search(p, stripped) for p in comment_patterns)`. -/
def isCommentLine (cfg : LangCfg) (stripped : String) : Bool :=
  cfg.commentPatterns.any (fun p => (reSearch p stripped).isSome)

/-- Try the import patterns in order; first match wins. -/
def firstImportMatch (patterns : List Re) (stripped : String) :
    Option (Caps × Nat) :=
  match patterns with
  | [] => none
  | p :: rest =>
    match reSearch p stripped with
    | some caps => some (caps, p.groupCount)
    | none => firstImportMatch rest stripped

/-- Processing of one line of `extract_imports`: skip blank lines, skip
comment lines, else decompose the first matching import pattern. -/
def lineImports (language : String) (cfg : LangCfg) (lineNum : Nat)
    (line : String) : Except Unit (Option ImportFact) :=
  let stripped := pyStripS line
  if stripped = ("") then .ok none
  else if isCommentLine cfg stripped then .ok none
  else
    match firstImportMatch cfg.importPatterns stripped with
    | none => .ok none
    | some (caps, gc) =>
      match decomposeImport language stripped lineNum caps gc with
      | .error e => .error e
      | .ok fact => .ok (some fact)

/-- Line loop of `extract_imports` (line numbers start at 1); an
exception aborts the whole call. -/
def importsLoop (language : String) (cfg : LangCfg) :
    List String → Nat → List ImportFact → Except Unit (List ImportFact)
  | [], _, acc => .ok acc
  | l :: rest, n, acc =>
    match lineImports language cfg n l with
    | .error e => .error e
    | .ok none => importsLoop language cfg rest (n + 1) acc
    | .ok (some f) => importsLoop language cfg rest (n + 1) (acc ++ [f])

/-- `MultiLanguageSemanticAnalyzer.extract_imports`. -/
def extract_imports (file_content language : String) :
    Except Unit (List ImportFact) :=
  match langCfg? language with
  | none => .ok []
  | some cfg => importsLoop language cfg (pyLines file_content) 1 []

/-! ## Relational materializer (`jsonl_to_sqlite.py`)

The SQLite connection is modelled by an in-memory database value: each
table is a list of rows appended in insertion order, with
`AUTOINCREMENT` surrogate ids tracked by an explicit counter (SQLite row
ids start at 1).  Transaction batching (`conn.commit()` every 100 lines)
does not change the final contents and is not modelled; wall-clock
timestamp columns (`created_at := datetime.now()`, `last_updated`) are
omitted. -/

/-- Aggregate statistics stored on a PR row (`pr_stats`). -/
structure PRAgg where
  additions : Nat := 0
  deletions : Nat := 0
  changed_files : Nat := 0
  commits_count : Nat := 0
  reviews_count : Nat := 0
  review_comments_count : Nat := 0
deriving DecidableEq, Repr

structure RepoRow where
  id : Nat
  owner : String
  name : String
  full_name : String
  language : Option String
  stars : Nat
deriving DecidableEq, Repr

structure PRRow where
  id : Nat
  repo_id : Nat
  pr_number : Nat
  title : String
  body : String
  author : String
  created_at : Option String
  merged_at : Option String
  agg : PRAgg
deriving DecidableEq, Repr

structure CommitRow where
  id : Nat
  repo_id : Nat
  pr_id : Nat
  commit_hash : String
  message : String
  author : String
  author_email : String
  committed_at : Option String
  additions : Nat
  deletions : Nat
  total_changes : Nat
deriving DecidableEq, Repr

structure FCRow where
  id : Nat
  commit_id : Nat
  file_path : String
  change_type : String
  file_language : Option String
  additions : Nat
  deletions : Nat
  changes : Nat
  patch_content : Option String
deriving DecidableEq, Repr

/-- Converter statistics (`self.stats` of `JSONLToSQLiteConverter`),
restricted to the counters touched by the embedded operations. -/
structure MStats where
  repositories : Nat := 0
  pull_requests : Nat := 0
  commits : Nat := 0
  file_changes : Nat := 0
deriving DecidableEq, Repr

/-- The database state. -/
structure MDB where
  repositories : List RepoRow := []
  pull_requests : List PRRow := []
  commits : List CommitRow := []
  file_changes : List FCRow := []
  nextRepoId : Nat := 1
  nextPrId : Nat := 1
  nextCommitId : Nat := 1
  nextFcId : Nat := 1
  mstats : MStats := {}
deriving DecidableEq, Repr

def emptyMDB : MDB := {}

/-- One line of a `{language}_pr_data.jsonl` shard, already JSON-decoded.
Optional fields mirror `data.get(...)`; required fields mirror
`data['...']` on a well-formed record. -/
structure PRShardRec where
  repo_full_name : String
  repo_language : Option String := none
  repo_stars : Nat := 0
  pr_number : Nat
  pr_title : String := ""
  pr_body : String := ""
  pr_author : String := ""
  pr_created_at : Option String := none
  pr_merged_at : Option String := none
  pr_stats : PRAgg := {}
deriving DecidableEq, Repr

/-- One line of a `{language}_file_changes.jsonl` shard. -/
structure FCShardRec where
  repo_full_name : String
  commit_hash : String
  file_path : String
  change_type : String := "modified"
  file_language : Option String := none
  additions : Nat := 0
  deletions : Nat := 0
  changes : Nat := 0
  patch_content : Option String := none
deriving DecidableEq, Repr

/-- Python `repo_full_name.split('/', 1)` unpacked into two names:
`none` models the `ValueError` raised when there is no slash. -/
def splitSlash? (s : String) : Option (String × String) :=
  if (s.data.contains '/') then
    some (String.mk (s.data.takeWhile (fun c => c ≠ '/')),
      String.mk ((s.data.dropWhile (fun c => c ≠ '/')).drop 1))
  else none

/-- `JSONLToSQLiteConverter.get_or_create_repository`: look up by
`full_name`, insert a fresh row when absent.  `none` models the uncaught
`ValueError` from the unpacking `owner, name = repo_full_name.split('/', 1)`. -/
def get_or_create_repository (db : MDB) (rec : PRShardRec) :
    Option (Nat × MDB) :=
  match db.repositories.find? (fun row => row.full_name = rec.repo_full_name) with
  | some row => some (row.id, db)
  | none =>
    match splitSlash? rec.repo_full_name with
    | none => none
    | some (ow, nm) =>
      let row : RepoRow :=
        { id := db.nextRepoId, owner := ow, name := nm,
          full_name := rec.repo_full_name, language := rec.repo_language,
          stars := rec.repo_stars }
      some (row.id, { db with
        repositories := db.repositories ++ [row]
        nextRepoId := db.nextRepoId + 1
        mstats := { db.mstats with repositories := db.mstats.repositories + 1 } })

/-- `JSONLToSQLiteConverter.get_or_create_pull_request`: look up by
`(repo_id, pr_number)`, insert a fresh row when absent. -/
def get_or_create_pull_request (db : MDB) (repoId : Nat) (rec : PRShardRec) :
    Nat × MDB :=
  match db.pull_requests.find?
      (fun row => row.repo_id = repoId ∧ row.pr_number = rec.pr_number) with
  | some row => (row.id, db)
  | none =>
    let row : PRRow :=
      { id := db.nextPrId, repo_id := repoId, pr_number := rec.pr_number,
        title := rec.pr_title, body := rec.pr_body, author := rec.pr_author,
        created_at := rec.pr_created_at, merged_at := rec.pr_merged_at,
        agg := rec.pr_stats }
    (row.id, { db with
      pull_requests := db.pull_requests ++ [row]
      nextPrId := db.nextPrId + 1
      mstats := { db.mstats with pull_requests := db.mstats.pull_requests + 1 } })

/-- One line of `JSONLToSQLiteConverter._process_pr_data`: resolve or
create the repository, then the pull request.  An exception from either
step (modelled by `none`) is caught by the per-line handler, which skips
the line. -/
def processPrShardLine (db : MDB) (rec : PRShardRec) : MDB :=
  match get_or_create_repository db rec with
  | none => db
  | some (repoId, db1) => (get_or_create_pull_request db1 repoId rec).2

/-- `JSONLToSQLiteConverter._process_pr_data` over a decoded shard. -/
def process_pr_data (lines : List PRShardRec) (db : MDB) : MDB :=
  lines.foldl processPrShardLine db

/-- `JSONLToSQLiteConverter._get_repo_id`. -/
def getRepoId (db : MDB) (repoFullName : String) : Option Nat :=
  (db.repositories.find? (fun row => row.full_name = repoFullName)).map
    (fun row => row.id)

/-- `JSONLToSQLiteConverter._get_commit_id`: resolve the repository id,
then the commit id; `None` propagates. -/
def getCommitId (db : MDB) (repoFullName commitHash : String) : Option Nat :=
  match getRepoId db repoFullName with
  | none => none
  | some repoId =>
    (db.commits.find?
      (fun row => row.repo_id = repoId ∧ row.commit_hash = commitHash)).map
      (fun row => row.id)

/-- One line of `JSONLToSQLiteConverter._process_file_changes`: when the
parent commit resolves, insert a `file_changes` row; otherwise the record
is dropped (the `if commit_id:` guard) and processing continues. -/
def processFcShardLine (db : MDB) (rec : FCShardRec) : MDB :=
  match getCommitId db rec.repo_full_name rec.commit_hash with
  | none => db
  | some commitId =>
    let row : FCRow :=
      { id := db.nextFcId, commit_id := commitId, file_path := rec.file_path,
        change_type := rec.change_type, file_language := rec.file_language,
        additions := rec.additions, deletions := rec.deletions,
        changes := rec.changes, patch_content := rec.patch_content }
    { db with
      file_changes := db.file_changes ++ [row]
      nextFcId := db.nextFcId + 1
      mstats := { db.mstats with file_changes := db.mstats.file_changes + 1 } }

/-- `JSONLToSQLiteConverter._process_file_changes` over a decoded shard. -/
def process_file_changes (lines : List FCShardRec) (db : MDB) : MDB :=
  lines.foldl processFcShardLine db

/-! ## make_request (`MultiLanguageGitHubPRCrawler.make_request`)

The transport layer is modelled by an oracle: the list of outcomes that
successive `requests.get` calls would produce (an HTTP response with its
rate-limit headers and JSON payload, or a raised exception).  Time is an
integer clock that advances exactly by the seconds slept; the performed
actions are recorded in a trace. -/

structure HttpResp where
  status : Nat
  remaining : Nat
  reset : Int
  payload : Nat
deriving DecidableEq, Repr

/-- One `requests.get` outcome: a response, or a raised exception. -/
inductive CallResult where
  | resp (r : HttpResp) : CallResult
  | exc : CallResult
deriving DecidableEq, Repr

/-- Externally visible actions of `make_request`. -/
inductive RAct where
  | sleep (secs : Int) : RAct
  | request : RAct
deriving DecidableEq, Repr

/-- Crawler state relevant to `make_request`: the pending transport
outcomes, the clock, `self.rate_limit_remaining`, `self.api_calls`, and
the action trace. -/
structure RState where
  now : Int
  rateLimitRemaining : Nat
  apiCalls : Nat
  trace : List RAct
deriving DecidableEq, Repr

/-- Result of `make_request`: the JSON payload, `None`, or the marker that
the oracle ran out of outcomes (the modelled run did not finish). -/
inductive ReqOutcome where
  | payload (p : Nat) : ReqOutcome
  | absent : ReqOutcome
  | exhausted : ReqOutcome
deriving DecidableEq, Repr

def sleepSt (d : Int) (st : RState) : RState :=
  { st with now := st.now + d, trace := st.trace ++ [RAct.sleep d] }

/-- The attempt loop of `make_request`.  `attempt` is the loop index of
`for attempt in range(max_retries)`; falling off the end of the loop is
Python's implicit `return None`.  Each iteration: `check_rate_limit`
(sleep 60 s when the tracked remaining quota is below 50), then one
request consuming the next transport outcome.  Status 200 returns the
payload; 403 sleeps `max(reset - now, 3600)` seconds and recurses with
`max_retries=1`; 404 returns `None`; 502/503/504 sleeps `2**attempt` and
continues the loop; other statuses return `None`.  A raised exception
sleeps `2**attempt` and continues when attempts remain, else returns
`None`. -/
def makeRequestGo (maxRetries attempt : Nat) :
    List CallResult → RState → ReqOutcome × List CallResult × RState
  | calls, st =>
    if attempt ≥ maxRetries then (.absent, calls, st)
    else
      let st1 := if st.rateLimitRemaining < 50 then sleepSt 60 st else st
      match calls with
      | [] => (.exhausted, [], st1)
      | c :: rest =>
        let st2 : RState :=
          { st1 with
            apiCalls := st1.apiCalls + 1
            trace := st1.trace ++ [RAct.request] }
        match c with
        | .exc =>
          if attempt + 1 < maxRetries then
            makeRequestGo maxRetries (attempt + 1) rest
              (sleepSt ((2 : Int) ^ attempt) st2)
          else (.absent, rest, st2)
        | .resp r =>
          let st3 := { st2 with rateLimitRemaining := r.remaining }
          if r.status = 200 then (.payload r.payload, rest, st3)
          else if r.status = 403 then
            makeRequestGo 1 0 rest
              (sleepSt (max (r.reset - st3.now) 3600) st3)
          else if r.status = 404 then (.absent, rest, st3)
          else if r.status = 502 ∨ r.status = 503 ∨ r.status = 504 then
            makeRequestGo maxRetries (attempt + 1) rest
              (sleepSt ((2 : Int) ^ attempt) st2)
          else (.absent, rest, st3)

/-- `MultiLanguageGitHubPRCrawler.make_request` (default `max_retries=3`). -/
def make_request (maxRetries : Nat) (calls : List CallResult)
    (st : RState) : ReqOutcome × List CallResult × RState :=
  makeRequestGo maxRetries 0 calls st

/-! ## Crawler statistics (`self.stats` of `MultiLanguageGitHubPRCrawler`)

All counters touched by the embedded control flow (the per-file-language
distribution dictionary is not modelled). -/

structure CStats where
  total_repos_attempted : Nat := 0
  repos_successfully_processed : Nat := 0
  repos_skipped_no_prs : Nat := 0
  repos_skipped_too_many_prs : Nat := 0
  repos_failed : Nat := 0
  total_prs_processed : Nat := 0
  repos_skipped_already_processed : Nat := 0
  functions_detected : Nat := 0
  classes_detected : Nat := 0
  imports_extracted : Nat := 0
deriving DecidableEq, Repr

/-! ## get_pull_requests

The paginated listing is an oracle: element `i` is what `make_request`
returned for page `i + 1` (`none` both for a `None` return and for an
exhausted listing — either way the Python loop breaks). -/

/-- A decoded pull-request list item; `merged_at` present means merged. -/
structure PRItem where
  number : Nat
  title : String := ""
  body : String := ""
  author : String := ""
  created_at : Option String := none
  merged_at : Option String := none
deriving DecidableEq, Repr

/-- Page loop of `get_pull_requests`.  Per page: keep items with a merge
timestamp; on page 1, if the page held 100 items of which more than 80
are merged and ten times the merged count exceeds `skip_if_too_many`,
abandon the repository; abandon it as well whenever the accumulated
merged count exceeds `skip_if_too_many`; stop on a short page; honour the
`max_prs` cap (`max_prs and ...` — a `None`/zero cap is ignored).  The
returned flag records whether `repos_skipped_too_many_prs` was bumped. -/
def gprLoop (skipTooMany : Nat) (maxPrs : Option Nat) :
    List (Option (List PRItem)) → Nat → List PRItem → List PRItem × Bool
  | [], _, acc => (acc, false)
  | none :: _, _, acc => (acc, false)
  | some data :: rest, page, acc =>
    let merged := data.filter (fun pr => pr.merged_at.isSome)
    let acc2 := acc ++ merged
    if page = 1 ∧ 80 < merged.length ∧ data.length = 100 ∧
        skipTooMany < merged.length * 10 then ([], true)
    else if skipTooMany < acc2.length then ([], true)
    else if data.length < 100 then (acc2, false)
    else
      match maxPrs with
      | some m =>
        if m ≠ 0 ∧ m ≤ acc2.length then (acc2.take m, false)
        else gprLoop skipTooMany maxPrs rest (page + 1) acc2
      | none => gprLoop skipTooMany maxPrs rest (page + 1) acc2

/-- `MultiLanguageGitHubPRCrawler.get_pull_requests`, with the
`repos_skipped_too_many_prs` counter threaded explicitly. -/
def get_pull_requests (pages : List (Option (List PRItem)))
    (maxPrs : Option Nat) (skipTooMany : Nat) (stats : CStats) :
    List PRItem × CStats :=
  match gprLoop skipTooMany maxPrs pages 1 [] with
  | (prs, true) =>
    (prs, { stats with
      repos_skipped_too_many_prs := stats.repos_skipped_too_many_prs + 1 })
  | (prs, false) => (prs, stats)

/-! ## get_processed_repos_set

A shard file is a list of already-JSON-decoded lines: blank, malformed
(`json.loads` raises — the per-file handler then abandons the rest of
that file, keeping what was already collected), or a record with an
optional `repo_full_name` field. -/

inductive ShardLine where
  | blank : ShardLine
  | malformed : ShardLine
  | record (repoFullName : Option String) : ShardLine
deriving DecidableEq, Repr

/-- The eight shard kinds written by the crawler for one language. -/
inductive ShardKind where
  | prData | commitsK | fileChangesK | functionChangesK | classChangesK
  | importsK | diffHunksK | reviewCommentsK
deriving DecidableEq, Repr

/-- A language's shard directory: `none` when the file does not exist. -/
abbrev ShardFs := ShardKind → Option (List ShardLine)

/-- `set.add` modelled on a duplicate-free list. -/
def insertName (acc : List String) (n : String) : List String :=
  if n ∈ acc then acc else acc ++ [n]

/-- Scan of one shard file: skip blank lines, add each record's non-empty
`repo_full_name`, and stop at the first malformed line (the `except`
around the whole file loop). -/
def collectFileRepos : List ShardLine → List String → List String
  | [], acc => acc
  | .blank :: rest, acc => collectFileRepos rest acc
  | .malformed :: _, acc => acc
  | .record r :: rest, acc =>
    match r with
    | some n => if n ≠ "" then collectFileRepos rest (insertName acc n)
      else collectFileRepos rest acc
    | none => collectFileRepos rest acc

/-- The six shard kinds `get_processed_repos_set` scans, in source order:
`pr_data`, `commits`, `file_changes`, `function_changes`, `class_changes`,
`imports`. -/
def scannedShardKinds : List ShardKind :=
  [.prData, .commitsK, .fileChangesK, .functionChangesK, .classChangesK,
   .importsK]

/-- `MultiLanguageGitHubPRCrawler.get_processed_repos_set` for one
language's shard directory. -/
def get_processed_repos_set (fs : ShardFs) : List String :=
  scannedShardKinds.foldl (fun acc k =>
    match fs k with
    | none => acc
    | some lines => collectFileRepos lines acc) []

/-! ## get_language_from_file -/

/-- Final path component (after the last `/`). -/
def lastComponent (s : List Char) : List Char :=
  (s.reverse.takeWhile (fun c => c ≠ '/')).reverse

/-- `pathlib.Path(...).suffix`: the extension of the final component,
empty when the name has no dot, starts with its only dot, or ends with a
dot. -/
def pathSuffix (nm : List Char) : List Char :=
  let pre := nm.reverse.takeWhile (fun c => c ≠ '.')
  if nm.contains '.' ∧ pre ≠ [] ∧ pre.length + 2 ≤ nm.length then
    '.' :: pre.reverse
  else []

/-- `MultiLanguageSemanticAnalyzer.get_language_from_file`: lowercase the
suffix and return the first language (in `LANGUAGE_CONFIG` order) whose
extension list contains it. -/
def get_language_from_file (path : String) : Option String :=
  let ext := String.mk ((pathSuffix (lastComponent path.data)).map Char.toLower)
  (languageConfig.find? (fun p => p.2.fileExtensions.contains ext)).map
    (fun p => p.1)

/-! ## load_repos_from_file -/

/-- One decoded line of the repository-listing JSONL file. -/
structure RepoEntry where
  repo_name : String
  star_count : Nat := 0
  language : Option String := none
deriving DecidableEq, Repr

/-- A loaded repository descriptor (the dictionary built by
`load_repos_from_file`; the derived URL field is omitted). -/
structure RepoInfo where
  owner : String
  name : String
  full_name : String
  language : Option String
  stars : Nat
deriving DecidableEq, Repr

/-- Scan loop of `load_repos_from_file`: count entries at or above
`min_stars`; among those, once `start_index` is reached, keep entries
whose name contains `/`, stopping after `batch_size` loaded. -/
def loadReposGo (minStars startIdx batchSize : Nat) :
    List RepoEntry → Nat → Nat → List RepoInfo → List RepoInfo
  | [], _, _, acc => acc
  | e :: rest, curIdx, loaded, acc =>
    if minStars ≤ e.star_count then
      if startIdx ≤ curIdx then
        match splitSlash? e.repo_name with
        | some (ow, nm) =>
          let info : RepoInfo :=
            { owner := ow, name := nm, full_name := e.repo_name,
              language := e.language, stars := e.star_count }
          if batchSize ≤ loaded + 1 then acc ++ [info]
          else loadReposGo minStars startIdx batchSize rest (curIdx + 1)
            (loaded + 1) (acc ++ [info])
        | none => loadReposGo minStars startIdx batchSize rest (curIdx + 1)
            loaded acc
      else loadReposGo minStars startIdx batchSize rest (curIdx + 1) loaded acc
    else loadReposGo minStars startIdx batchSize rest curIdx loaded acc

/-- `MultiLanguageGitHubPRCrawler.load_repos_from_file` (default
`min_stars=1000`), over the decoded listing. -/
def load_repos_from_file (entries : List RepoEntry) (startIdx batchSize : Nat) :
    List RepoInfo :=
  loadReposGo 1000 startIdx batchSize entries 0 0 []

/-! ## process_pr_data (crawler side)

Every sub-fetch of `process_pr_data` (`get_pr_commits`, `get_pr_files`,
`get_pr_reviews`, `get_pr_review_comments`, `get_commit_details`,
`get_file_content_at_commit`) is a simple accumulate-all-pages loop over
`make_request`; their final results are modelled by oracle functions
keyed by `owner/name` plus the PR number, commit hash or file path.
`save_to_jsonl` is modelled by appending a typed record to an output log. -/

structure PRFileItem where
  additions : Nat := 0
  deletions : Nat := 0
deriving DecidableEq, Repr

structure ReviewItem where
  body : String := ""
  author : String := ""
  state : String := ""
  submitted_at : Option String := none
deriving DecidableEq, Repr

structure ReviewCommentItem where
  body : String := ""
  author : String := ""
  path : String := ""
  line : Option Nat := none
  created_at : Option String := none
deriving DecidableEq, Repr

structure FileData where
  filename : String
  status : String := "modified"
  additions : Nat := 0
  deletions : Nat := 0
  changes : Nat := 0
  patch : Option String := none
deriving DecidableEq, Repr

structure CommitStatsD where
  additions : Nat := 0
  deletions : Nat := 0
  total : Nat := 0
deriving DecidableEq, Repr

structure CommitDetail where
  stats : CommitStatsD := {}
  files : List FileData := []
deriving DecidableEq, Repr

structure CommitItem where
  sha : String
  message : String := ""
  author_name : String := ""
  author_email : String := ""
  date : Option String := none
deriving DecidableEq, Repr

/-- One record appended to a shard file by `process_pr_data`. -/
inductive ShardRec where
  | prRec (repoFullName : String) (prNumber : Nat) (agg : PRAgg) : ShardRec
  | reviewRec (repoFullName : String) (prNumber : Nat) (commentType : String)
      (reviewer : String) (text : String) : ShardRec
  | commitRec (repoFullName : String) (prNumber : Nat) (hash : String) : ShardRec
  | fileChangeRec (repoFullName : String) (prNumber : Nat) (hash : String)
      (path : String) (lang : Option String) (changeType : String) : ShardRec
  | functionRec (repoFullName : String) (hash : String) (path : String)
      (fact : ChangeFact) : ShardRec
  | classRec (repoFullName : String) (hash : String) (path : String)
      (fact : ChangeFact) : ShardRec
  | hunkRec (repoFullName : String) (hash : String) (path : String)
      (idx : Nat) (h : Hunk) : ShardRec
  | importRec (repoFullName : String) (hash : String) (path : String)
      (fact : ImportFact) : ShardRec
deriving DecidableEq, Repr

/-- All data sources of one crawl, as oracles.  `prPages` is the sequence
of `make_request` results seen by `get_pull_requests` for a repository;
the other fields are the accumulated results of the paginated
sub-fetches. -/
structure CrawlEnv where
  shardFs : ShardFs
  repoEntries : List RepoEntry
  prPages : String → List (Option (List PRItem))
  commitsOf : String → Nat → List CommitItem
  filesOf : String → Nat → List PRFileItem
  reviewsOf : String → Nat → List ReviewItem
  reviewCommentsOf : String → Nat → List ReviewCommentItem
  commitDetails : String → String → Option CommitDetail
  contentAt : String → String → String → Option String

/-- Import-record construction in the commit/file loop: `imp['import_type']`
and `imp['module_name']` are hard key accesses, so a fact without them
raises `KeyError` (`Except.error`). -/
def buildImportRec (repoFullName hash path : String) (imp : ImportFact) :
    Except Unit ShardRec :=
  match imp.import_type, imp.module_name with
  | some _, some _ => .ok (.importRec repoFullName hash path imp)
  | _, _ => .error ()

/-- Append import records one by one; an exception keeps the records
already written. -/
def appendImportRecs (repoFullName hash path : String)
    (imps : List ImportFact) (acc : List ShardRec) :
    Except (List ShardRec) (List ShardRec) :=
  match imps with
  | [] => .ok acc
  | imp :: rest =>
    match buildImportRec repoFullName hash path imp with
    | .error _ => .error acc
    | .ok rec => appendImportRecs repoFullName hash path rest (acc ++ [rec])

/-- The per-file body of the commit loop: emit the file-change record;
when the path resolves to a known language, run the hunk-based detectors
on a non-empty patch and emit their records, then fetch the file content
at the commit and run import extraction on a truthy result.  An uncaught
exception from `extract_imports` or from import-record construction
aborts `process_pr_data` (`Except.error` carries the records written so
far). -/
def processFile (env : CrawlEnv) (key repoFullName : String) (prNumber : Nat)
    (hash : String) (f : FileData) (acc : List ShardRec) :
    Except (List ShardRec) (List ShardRec) :=
  let lang? := get_language_from_file f.filename
  let acc := acc ++ [.fileChangeRec repoFullName prNumber hash f.filename lang? f.status]
  match lang? with
  | none => .ok acc
  | some lang =>
    let patch := f.patch.getD ("")
    let acc :=
      if patch ≠ "" then
        acc ++ ((detect_function_changes patch lang).map
            (fun fact => ShardRec.functionRec repoFullName hash f.filename fact))
          ++ ((detect_class_changes patch lang).map
            (fun fact => ShardRec.classRec repoFullName hash f.filename fact))
          ++ (((parse_diff_hunks patch).enum).map
            (fun p => ShardRec.hunkRec repoFullName hash f.filename p.1 p.2))
      else acc
    match env.contentAt key f.filename hash with
    | none => .ok acc
    | some content =>
      if content = "" then .ok acc
      else
        match extract_imports content lang with
        | .error _ => .error acc
        | .ok imps => appendImportRecs repoFullName hash f.filename imps acc

/-- File loop over one commit's detail. -/
def processCommitFiles (env : CrawlEnv) (key repoFullName : String)
    (prNumber : Nat) (hash : String) :
    List FileData → List ShardRec → Except (List ShardRec) (List ShardRec)
  | [], acc => .ok acc
  | f :: rest, acc =>
    match processFile env key repoFullName prNumber hash f acc with
    | .error acc' => .error acc'
    | .ok acc' => processCommitFiles env key repoFullName prNumber hash rest acc'

/-- Commit loop of `process_pr_data`: commits whose detail fetch returns
`None` are skipped; an exception below aborts with the records written so
far. -/
def processCommits (env : CrawlEnv) (key repoFullName : String)
    (prNumber : Nat) :
    List CommitItem → List ShardRec → Except (List ShardRec) (List ShardRec)
  | [], acc => .ok acc
  | c :: rest, acc =>
    match env.commitDetails key c.sha with
    | none => processCommits env key repoFullName prNumber rest acc
    | some det =>
      let acc := acc ++ [.commitRec repoFullName prNumber c.sha]
      match processCommitFiles env key repoFullName prNumber c.sha det.files acc with
      | .error acc' => .error acc'
      | .ok acc' => processCommits env key repoFullName prNumber rest acc'

/-- `MultiLanguageGitHubPRCrawler.process_pr_data`: fetch commits, files,
reviews and review comments; return `False` with no records when the
commit listing is empty, else persist the PR record and the non-empty
review/review-comment records, process each commit, and return `True`
(or `False` with the partial records when an exception was caught). -/
def process_pr_data_crawl (env : CrawlEnv) (repo : RepoInfo) (pr : PRItem) :
    Bool × List ShardRec :=
  let key := repo.owner ++ "/" ++ repo.name
  let commits := env.commitsOf key pr.number
  let files := env.filesOf key pr.number
  let reviews := env.reviewsOf key pr.number
  let reviewComments := env.reviewCommentsOf key pr.number
  if commits = [] then (false, [])
  else
    let agg : PRAgg :=
      { additions := (files.map (fun f => f.additions)).sum
        deletions := (files.map (fun f => f.deletions)).sum
        changed_files := files.length
        commits_count := commits.length
        reviews_count := reviews.length
        review_comments_count := reviewComments.length }
    let acc : List ShardRec := [.prRec repo.full_name pr.number agg]
    let acc := acc ++ ((reviews.filter (fun r => r.body ≠ "")).map
      (fun r => ShardRec.reviewRec repo.full_name pr.number ("review") r.author r.body))
    let acc := acc ++ ((reviewComments.filter (fun r => r.body ≠ "")).map
      (fun r => ShardRec.reviewRec repo.full_name pr.number ("review_comment")
        r.author r.body))
    match processCommits env key repo.full_name pr.number commits acc with
    | .error acc' => (false, acc')
    | .ok acc' => (true, acc')

/-! ## crawl_language -/

/-- Crawl progress: the processed-repository set, the
`successfully_processed_repos` counter, the statistics, and the shard log. -/
structure CrawlState where
  processed : List String
  success : Nat
  stats : CStats
  log : List ShardRec
deriving Repr

/-- PR loop of `crawl_language` for one repository: count the PRs for
which `process_pr_data` returned `True`, bump `total_prs_processed`, and
append all records. -/
def crawlPrLoop (env : CrawlEnv) (repo : RepoInfo) :
    List PRItem → Nat → CStats → List ShardRec → Nat × CStats × List ShardRec
  | [], count, stats, log => (count, stats, log)
  | pr :: rest, count, stats, log =>
    match process_pr_data_crawl env repo pr with
    | (true, recs) =>
      crawlPrLoop env repo rest (count + 1)
        { stats with total_prs_processed := stats.total_prs_processed + 1 }
        (log ++ recs)
    | (false, recs) => crawlPrLoop env repo rest count stats (log ++ recs)

/-- The `total_repos_attempted` bump taken before fetching a repository's
pull requests. -/
def attemptStats (stats : CStats) : CStats :=
  { stats with total_repos_attempted := stats.total_repos_attempted + 1 }

/-- Per-repository body of `crawl_language`: skip already-processed
repositories, fetch the PR list (ceiling 200), skip when it is empty, and
otherwise process every PR, marking the repository completed only when at
least one PR was processed successfully. -/
def processRepo (env : CrawlEnv) (maxPrs : Option Nat) (st : CrawlState)
    (repo : RepoInfo) : CrawlState :=
  let fullName := repo.owner ++ "/" ++ repo.name
  if fullName ∈ st.processed then
    { st with stats := { st.stats with
        repos_skipped_already_processed :=
          st.stats.repos_skipped_already_processed + 1 } }
  else
    let (prs, stats1) :=
      get_pull_requests (env.prPages fullName) maxPrs 200 (attemptStats st.stats)
    if prs = [] then
      { st with stats := { stats1 with
          repos_skipped_no_prs := stats1.repos_skipped_no_prs + 1 } }
    else
      let (count, stats2, log2) := crawlPrLoop env repo prs 0 stats1 st.log
      if 0 < count then
        { processed := insertName st.processed fullName
          success := st.success + 1
          stats := { stats2 with
            repos_successfully_processed :=
              stats2.repos_successfully_processed + 1 }
          log := log2 }
      else { st with stats := stats2, log := log2 }

/-- Repository loop over one batch, stopping once the target is reached. -/
def crawlBatchLoop (env : CrawlEnv) (target : Nat) (maxPrs : Option Nat) :
    List RepoInfo → CrawlState → CrawlState
  | [], st => st
  | repo :: rest, st =>
    if target ≤ st.success then st
    else crawlBatchLoop env target maxPrs rest (processRepo env maxPrs st repo)

/-- Batch loop of `crawl_language`: load windows of 50 repositories until
the target is reached, the listing is exhausted, or a short batch signals
the end.  `fuel` bounds the number of windows; `crawl_language` passes
enough fuel for the whole listing. -/
def crawlLoop (env : CrawlEnv) (target : Nat) (maxPrs : Option Nat) :
    Nat → Nat → CrawlState → CrawlState
  | 0, _, st => st
  | fuelLeft + 1, startIdx, st =>
    if target ≤ st.success then st
    else
      let batch := load_repos_from_file env.repoEntries startIdx 50
      if batch = [] then st
      else
        let st2 := crawlBatchLoop env target maxPrs batch st
        if target ≤ st2.success then st2
        else if batch.length < 50 then st2
        else crawlLoop env target maxPrs fuelLeft (startIdx + 50) st2

/-- `MultiLanguageGitHubPRCrawler.crawl_language`: resume from the shard
files, then crawl batches until the per-language target is reached. -/
def crawl_language (env : CrawlEnv) (target : Nat) (maxPrs : Option Nat) :
    CrawlState :=
  let processed0 := get_processed_repos_set env.shardFs
  let st0 : CrawlState :=
    { processed := processed0, success := processed0.length, stats := {},
      log := [] }
  if target ≤ st0.success then st0
  else crawlLoop env target maxPrs (env.repoEntries.length + 1) 0 st0

/-! ## Claim C4: hunk-header defaults and context trimming -/

/-- Claim C4: on the header `@@ -10,5 +12 @@ void f()`, whose new-side
count is omitted, `parse_diff_hunks` emits exactly one hunk with
`old_start = 10`, `old_count = 5`, `new_start = 12`, the omitted
`new_count` defaulted to `1`, and the trailing context text stored
trimmed as `void f()`. -/
theorem hunk_header_defaults :
    parse_diff_hunks ("@@ -10,5 +12 @@ void f()") =
      [{ old_start := 10, old_count := 5, new_start := 12, new_count := 1,
         context := "void f()", changes := [] }] := by
  decide

/-! ## Claim C9: malformed `@@` lines are inert -/

/-- A line starting with `@@` whose header regex fails leaves the parse
state untouched. -/
theorem parseDiffStep_malformed (st : List Hunk) (m : String)
    (hpre : strStartsWith m ("@@") = true)
    (hmatch : reMatch hunkHeaderRe m = none) :
    parseDiffStep st m = st := by
  unfold parseDiffStep
  rw [if_pos hpre, hmatch]

/-- Claim C9: a line beginning with `@@` that does not match the
hunk-header pattern emits no hunk and does not close or reset the current
hunk: parsing with the malformed line inserted gives exactly the same
hunks — with every later `+`/`-`/space line appended to the most recent
well-formed hunk — as parsing without it. -/
theorem malformed_header_inert (xs ys : List String) (m : String)
    (hpre : strStartsWith m ("@@") = true)
    (hmatch : reMatch hunkHeaderRe m = none) :
    parseHunksLines (xs ++ m :: ys) = parseHunksLines (xs ++ ys) ∧
    parseDiffStep (parseHunksLines xs) m = parseHunksLines xs := by
  constructor
  · unfold parseHunksLines
    rw [List.foldl_append, List.foldl_append, List.foldl_cons,
      parseDiffStep_malformed _ m hpre hmatch]
  · exact parseDiffStep_malformed _ m hpre hmatch

/-- Witness for C9 at a concrete patch: the malformed header `@@ oops`
between a well-formed hunk and its change lines changes nothing. -/
theorem malformed_header_inert_witness :
    parseHunksLines (["@@ -1,2 +1,2 @@ ctx"] ++ ("@@ oops") :: ["+a", " b"]) =
      parseHunksLines (["@@ -1,2 +1,2 @@ ctx"] ++ ["+a", " b"]) :=
  (malformed_header_inert ["@@ -1,2 +1,2 @@ ctx"] ["+a", " b"] ("@@ oops")
    (by decide) (by decide)).1

/-! ## Claim C8: orphaned file-change records are dropped, not fatal -/

/-- Claim C8: a file-change shard record whose
`(repo_full_name, commit_hash)` pair resolves to no commits row is
dropped with no `file_changes` insert and no failure, and the batch
continues with the next line: processing the record is the identity on
the database, and processing a batch starting with it equals processing
the rest of the batch. -/
theorem orphan_file_change_dropped (db : MDB) (rec : FCShardRec)
    (rest : List FCShardRec)
    (horphan : getCommitId db rec.repo_full_name rec.commit_hash = none) :
    processFcShardLine db rec = db ∧
    process_file_changes (rec :: rest) db = process_file_changes rest db := by
  have h1 : processFcShardLine db rec = db := by
    unfold processFcShardLine
    rw [horphan]
  exact ⟨h1, by unfold process_file_changes; rw [List.foldl_cons, h1]⟩

/-- Witness for C8: a record referencing commit hash `h` of `o/r` against
the empty database. -/
theorem orphan_file_change_dropped_witness :
    processFcShardLine emptyMDB
        { repo_full_name := "o/r", commit_hash := "h", file_path := "f.py" } =
      emptyMDB ∧
    process_file_changes
        [{ repo_full_name := "o/r", commit_hash := "h", file_path := "f.py" }]
        emptyMDB =
      process_file_changes [] emptyMDB :=
  orphan_file_change_dropped emptyMDB
    { repo_full_name := "o/r", commit_hash := "h", file_path := "f.py" } []
    (by decide)

/-! ## Claim C3: quota-exhaustion handling in make_request -/

/-- The state and transport oracle of a run whose first response is
quota-exhausted (HTTP 403) with a reset time 600 seconds in the future,
followed by a successful response. -/
def quotaCalls : List CallResult :=
  [.resp { status := 403, remaining := 4000, reset := 600, payload := 0 },
   .resp { status := 200, remaining := 3999, reset := 600, payload := 7 }]

def quotaState : RState :=
  { now := 0, rateLimitRemaining := 5000, apiCalls := 0, trace := [] }

/-- Counterexample for C3: with the quota reset reported 600 seconds in
the future (it has not passed), the claim's description — sleep until the
reset time — calls for a 600-second sleep; the code instead sleeps
`max(reset - now, 3600) = 3600` seconds.  The run performs no 600-second
sleep at all, then retries and returns the payload. -/
theorem quota_sleep_counterexample :
    (make_request 3 quotaCalls quotaState).2.2.trace =
      [RAct.request, RAct.sleep 3600, RAct.request] ∧
    RAct.sleep 600 ∉ (make_request 3 quotaCalls quotaState).2.2.trace ∧
    (make_request 3 quotaCalls quotaState).1 = .payload 7 ∧
    (600 : Int) ≠ 3600 := by
  decide

/-- Claim C3 (amended): on a quota-exhausted (HTTP 403) response,
`make_request` sleeps for `max(reset - now, 3600)` seconds — until the
reported reset time, but always at least the fixed 3600-second minimum,
even when the reset time is sooner — and then re-enters itself with a
retry budget of one; a 403 response is never itself turned into a `None`
return (each one leads to the sleep-and-retry call, recursively). -/
theorem quota_sleep_and_retry (maxRetries : Nat) (r : HttpResp)
    (rest : List CallResult) (st : RState)
    (hmr : 1 ≤ maxRetries) (hq : 50 ≤ st.rateLimitRemaining)
    (hs : r.status = 403) :
    make_request maxRetries (.resp r :: rest) st =
      make_request 1 rest
        (sleepSt (max (r.reset - st.now) 3600)
          { st with
            apiCalls := st.apiCalls + 1
            trace := st.trace ++ [RAct.request]
            rateLimitRemaining := r.remaining }) := by
  have h200 : ¬r.status = 200 := by omega
  have hge : ¬0 ≥ maxRetries := by omega
  have hrl : ¬st.rateLimitRemaining < 50 := by omega
  conv_lhs => rw [make_request, makeRequestGo]
  rw [make_request]
  simp [hge, hrl, hs, h200]

/-- Witness for C3 (amended) at the concrete quota run. -/
theorem quota_sleep_and_retry_witness :
    make_request 3 quotaCalls quotaState =
      make_request 1
        [.resp { status := 200, remaining := 3999, reset := 600, payload := 7 }]
        (sleepSt 3600
          { now := 0
            rateLimitRemaining := 4000
            apiCalls := 1
            trace := [RAct.request] }) := by
  have h := quota_sleep_and_retry 3
    { status := 403, remaining := 4000, reset := 600, payload := 0 }
    [.resp { status := 200, remaining := 3999, reset := 600, payload := 7 }]
    quotaState (by decide) (by decide) rfl
  simpa [quotaState, quotaCalls] using h

/-! ## Claim C5: pull-request skip heuristics -/

/-- Claim C5: `get_pull_requests` abandons the repository — returning an
empty list and bumping `repos_skipped_too_many_prs` — when (1) the first
page holds exactly 100 items, more than 80 of them merged, and ten times
that merged count exceeds the ceiling; the decision is taken on the first
page alone, whatever the remaining pages hold; and (2) at any page, the
moment the accumulated merged count exceeds the ceiling the loop abandons
the repository as well. -/
theorem pr_skip_heuristics :
    (∀ (data : List PRItem) (rest : List (Option (List PRItem)))
        (maxPrs : Option Nat) (skip : Nat) (stats : CStats),
      data.length = 100 →
      80 < (data.filter (fun pr => pr.merged_at.isSome)).length →
      skip < (data.filter (fun pr => pr.merged_at.isSome)).length * 10 →
      get_pull_requests (some data :: rest) maxPrs skip stats =
        ([], { stats with repos_skipped_too_many_prs :=
            stats.repos_skipped_too_many_prs + 1 })) ∧
    (∀ (data : List PRItem) (rest : List (Option (List PRItem)))
        (page : Nat) (acc : List PRItem) (maxPrs : Option Nat) (skip : Nat),
      skip < (acc ++ data.filter (fun pr => pr.merged_at.isSome)).length →
      gprLoop skip maxPrs (some data :: rest) page acc = ([], true)) := by
  constructor
  · intro data rest maxPrs skip stats hlen hmany hest
    unfold get_pull_requests
    rw [show gprLoop skip maxPrs (some data :: rest) 1 [] = ([], true) from ?_]
    · unfold gprLoop
      rw [if_pos ⟨rfl, hmany, hlen, hest⟩]
  · intro data rest page acc maxPrs skip hover
    by_cases h1 : page = 1 ∧
        80 < (List.filter (fun pr => pr.merged_at.isSome) data).length ∧
        data.length = 100 ∧
        skip < (List.filter (fun pr => pr.merged_at.isSome) data).length * 10
    · simp [gprLoop, h1]
    · simp only [gprLoop, if_neg h1]
      rw [if_pos hover]

/-- A first page of exactly 100 items, 85 of them merged. -/
def page85 : List PRItem :=
  (List.range 100).map (fun i =>
    { number := i, merged_at := if i < 85 then some "m" else none })

/-- Witness for C5: the 85-merged-of-100 first page under a ceiling of
200 is skipped with the counter bumped (extrapolation 850 > 200), before
any further page is consulted. -/
theorem pr_skip_heuristics_witness :
    get_pull_requests [some page85] none 200 {} =
      ([], { repos_skipped_too_many_prs := 1 }) :=
  pr_skip_heuristics.1 page85 [] none 200 {} (by decide) (by decide) (by decide)

/-! ## Claim C7: idempotent dimension materialization -/

theorem find?_append_some {α : Type _} (p : α → Bool) {l : List α} {x : α}
    (t : List α) (h : l.find? p = some x) : (l ++ t).find? p = some x := by
  induction l with
  | nil => simp at h
  | cons a as ih =>
    by_cases hpa : p a
    · rw [List.find?_cons_of_pos _ hpa] at h
      rw [List.cons_append, List.find?_cons_of_pos _ hpa]
      exact h
    · rw [List.find?_cons_of_neg _ hpa] at h
      rw [List.cons_append, List.find?_cons_of_neg _ hpa]
      exact ih h

theorem find?_append_one {α : Type _} (p : α → Bool) {l : List α}
    (h : l.find? p = none) {y : α} (hy : p y = true) :
    (l ++ [y]).find? p = some y := by
  induction l with
  | nil => simp [List.find?_cons_of_pos _ hy]
  | cons a as ih =>
    by_cases hpa : p a
    · rw [List.find?_cons_of_pos _ hpa] at h
      exact absurd h (by simp)
    · rw [List.find?_cons_of_neg _ hpa] at h
      rw [List.cons_append, List.find?_cons_of_neg _ hpa]
      exact ih h

/-- Growth order on databases: each dimension table only gains rows at
the end. -/
def dbGrows (a b : MDB) : Prop :=
  (∃ t, b.repositories = a.repositories ++ t) ∧
  (∃ t, b.pull_requests = a.pull_requests ++ t)

theorem dbGrows_refl (a : MDB) : dbGrows a a := ⟨⟨[], by simp⟩, ⟨[], by simp⟩⟩

theorem dbGrows_trans {a b c : MDB} (h1 : dbGrows a b) (h2 : dbGrows b c) :
    dbGrows a c := by
  obtain ⟨⟨t1, ht1⟩, ⟨t2, ht2⟩⟩ := h1
  obtain ⟨⟨u1, hu1⟩, ⟨u2, hu2⟩⟩ := h2
  exact ⟨⟨t1 ++ u1, by simp [hu1, ht1]⟩, ⟨t2 ++ u2, by simp [hu2, ht2]⟩⟩

theorem gocr_grows {db : MDB} {r : PRShardRec} {i : Nat} {db1 : MDB}
    (h : get_or_create_repository db r = some (i, db1)) : dbGrows db db1 := by
  unfold get_or_create_repository at h
  cases hfind : db.repositories.find?
      (fun w => w.full_name = r.repo_full_name) with
  | some row =>
    rw [hfind] at h
    cases h
    exact dbGrows_refl _
  | none =>
    rw [hfind] at h
    cases hsplit : splitSlash? r.repo_full_name with
    | none => rw [hsplit] at h; cases h
    | some pr =>
      rw [hsplit] at h
      cases h
      exact ⟨⟨[_], rfl⟩, ⟨[], by simp⟩⟩

theorem gocpr_grows (db : MDB) (i : Nat) (r : PRShardRec) :
    dbGrows db (get_or_create_pull_request db i r).2 := by
  unfold get_or_create_pull_request
  cases hfind : db.pull_requests.find?
      (fun w => w.repo_id = i ∧ w.pr_number = r.pr_number) with
  | some row => exact dbGrows_refl _
  | none => exact ⟨⟨[], by simp⟩, ⟨[_], rfl⟩⟩

theorem processPrShardLine_grows (db : MDB) (r : PRShardRec) :
    dbGrows db (processPrShardLine db r) := by
  unfold processPrShardLine
  cases hrepo : get_or_create_repository db r with
  | none => exact dbGrows_refl _
  | some p =>
    obtain ⟨i, db1⟩ := p
    exact dbGrows_trans (gocr_grows hrepo) (gocpr_grows db1 i r)

theorem process_pr_data_grows (lines : List PRShardRec) (db : MDB) :
    dbGrows db (process_pr_data lines db) := by
  induction lines generalizing db with
  | nil => exact dbGrows_refl _
  | cons r rest ih =>
    exact dbGrows_trans (processPrShardLine_grows db r)
      (ih (processPrShardLine db r))

/-- A line is settled in a database when re-processing it cannot insert:
either its repository name has no slash (so the line is skipped), or its
repository row is findable and the matching pull-request row exists. -/
def settled (db : MDB) (r : PRShardRec) : Prop :=
  splitSlash? r.repo_full_name = none ∨
  ∃ row, db.repositories.find?
      (fun w => w.full_name = r.repo_full_name) = some row ∧
    (db.pull_requests.find?
      (fun w => w.repo_id = row.id ∧ w.pr_number = r.pr_number)).isSome

theorem settled_mono {db db' : MDB} (h : dbGrows db db') {r : PRShardRec}
    (hs : settled db r) : settled db' r := by
  obtain ⟨⟨t1, ht1⟩, ⟨t2, ht2⟩⟩ := h
  cases hs with
  | inl h0 => exact Or.inl h0
  | inr h0 =>
    obtain ⟨row, hfind, hpr⟩ := h0
    refine Or.inr ⟨row, ?_, ?_⟩
    · rw [ht1]; exact find?_append_some _ t1 hfind
    · obtain ⟨w, hw⟩ := Option.isSome_iff_exists.mp hpr
      rw [ht2]
      exact Option.isSome_iff_exists.mpr ⟨w, find?_append_some _ t2 hw⟩

theorem gocr_none {db : MDB} {r : PRShardRec}
    (h : get_or_create_repository db r = none) :
    splitSlash? r.repo_full_name = none := by
  unfold get_or_create_repository at h
  cases hfind : db.repositories.find?
      (fun w => w.full_name = r.repo_full_name) with
  | some row => rw [hfind] at h; cases h
  | none =>
    rw [hfind] at h
    cases hsplit : splitSlash? r.repo_full_name with
    | none => rfl
    | some pr => rw [hsplit] at h; cases h

theorem gocr_finds {db : MDB} {r : PRShardRec} {i : Nat} {db1 : MDB}
    (h : get_or_create_repository db r = some (i, db1)) :
    ∃ row, db1.repositories.find?
        (fun w => w.full_name = r.repo_full_name) = some row ∧ row.id = i := by
  unfold get_or_create_repository at h
  cases hfind : db.repositories.find?
      (fun w => w.full_name = r.repo_full_name) with
  | some row =>
    rw [hfind] at h
    cases h
    exact ⟨row, hfind, by
      have := List.find?_some hfind
      simp⟩
  | none =>
    rw [hfind] at h
    cases hsplit : splitSlash? r.repo_full_name with
    | none => rw [hsplit] at h; cases h
    | some pr =>
      rw [hsplit] at h
      cases h
      refine ⟨_, find?_append_one _ hfind (by simp), rfl⟩

theorem gocpr_finds (db : MDB) (i : Nat) (r : PRShardRec) :
    ((get_or_create_pull_request db i r).2.pull_requests.find?
      (fun w => w.repo_id = i ∧ w.pr_number = r.pr_number)).isSome ∧
    (get_or_create_pull_request db i r).2.repositories = db.repositories := by
  unfold get_or_create_pull_request
  cases hfind : db.pull_requests.find?
      (fun w => w.repo_id = i ∧ w.pr_number = r.pr_number) with
  | some row => exact ⟨by rw [hfind]; rfl, rfl⟩
  | none =>
    refine ⟨?_, rfl⟩
    have : ((db.pull_requests ++
        [({ id := db.nextPrId, repo_id := i, pr_number := r.pr_number,
            title := r.pr_title, body := r.pr_body, author := r.pr_author,
            created_at := r.pr_created_at, merged_at := r.pr_merged_at,
            agg := r.pr_stats } : PRRow)]).find?
        (fun w => w.repo_id = i ∧ w.pr_number = r.pr_number)).isSome := by
      rw [find?_append_one _ hfind (by simp)]
      rfl
    exact this

theorem processPrShardLine_settles (db : MDB) (r : PRShardRec) :
    settled (processPrShardLine db r) r := by
  unfold processPrShardLine
  cases hrepo : get_or_create_repository db r with
  | none => exact Or.inl (gocr_none hrepo)
  | some p =>
    obtain ⟨i, db1⟩ := p
    show settled (get_or_create_pull_request db1 i r).2 r
    obtain ⟨row, hfind, hid⟩ := gocr_finds hrepo
    obtain ⟨hpr, hrepos⟩ := gocpr_finds db1 i r
    refine Or.inr ⟨row, ?_, ?_⟩
    · rw [hrepos]; exact hfind
    · rw [hid]; exact hpr

/-- Every repository row ever inserted carries a slash in its full name
(its insertion required a successful split). -/
def goodDB (db : MDB) : Prop :=
  ∀ row ∈ db.repositories, row.full_name.data.contains '/' = true

theorem splitSlash?_none {s : String} (h : splitSlash? s = none) :
    s.data.contains '/' = false := by
  unfold splitSlash? at h
  by_cases hc : s.data.contains '/' = true
  · rw [if_pos hc] at h; cases h
  · simpa using hc

theorem splitSlash?_some {s : String} {pr : String × String}
    (h : splitSlash? s = some pr) : s.data.contains '/' = true := by
  unfold splitSlash? at h
  by_cases hc : s.data.contains '/' = true
  · exact hc
  · rw [if_neg (by simpa using hc)] at h; cases h

theorem goodDB_empty : goodDB emptyMDB := by
  intro row hrow
  simp [emptyMDB] at hrow

theorem gocr_of_find {db : MDB} {r : PRShardRec} {row : RepoRow}
    (hfind : db.repositories.find?
      (fun w => w.full_name = r.repo_full_name) = some row) :
    get_or_create_repository db r = some (row.id, db) := by
  unfold get_or_create_repository
  rw [hfind]

theorem gocpr_of_find {db : MDB} {i : Nat} {r : PRShardRec} {w : PRRow}
    (hw : db.pull_requests.find?
      (fun x => x.repo_id = i ∧ x.pr_number = r.pr_number) = some w) :
    get_or_create_pull_request db i r = (w.id, db) := by
  unfold get_or_create_pull_request
  rw [hw]

theorem processPrShardLine_good {db : MDB} (hgood : goodDB db)
    (r : PRShardRec) : goodDB (processPrShardLine db r) := by
  unfold processPrShardLine
  cases hrepo : get_or_create_repository db r with
  | none => exact hgood
  | some p =>
    obtain ⟨i, db1⟩ := p
    show goodDB (get_or_create_pull_request db1 i r).2
    have hrepos2 := (gocpr_finds db1 i r).2
    have hgood1 : goodDB db1 := by
      unfold get_or_create_repository at hrepo
      cases hfind : db.repositories.find?
          (fun w => w.full_name = r.repo_full_name) with
      | some row =>
        rw [hfind] at hrepo
        cases hrepo
        exact hgood
      | none =>
        rw [hfind] at hrepo
        cases hsplit : splitSlash? r.repo_full_name with
        | none => rw [hsplit] at hrepo; cases hrepo
        | some pr =>
          rw [hsplit] at hrepo
          cases hrepo
          intro row hrow
          rw [List.mem_append] at hrow
          cases hrow with
          | inl hOld => exact hgood row hOld
          | inr hNew =>
            simp only [List.mem_singleton] at hNew
            subst hNew
            exact splitSlash?_some hsplit
    intro row hrow
    rw [hrepos2] at hrow
    exact hgood1 row hrow

theorem processPrShardLine_noop {db : MDB} {r : PRShardRec}
    (hgood : goodDB db) (hs : settled db r) :
    processPrShardLine db r = db := by
  cases hs with
  | inl hsplit =>
    have hfind : db.repositories.find?
        (fun w => w.full_name = r.repo_full_name) = none := by
      rw [List.find?_eq_none]
      intro row hrow
      have hslash := hgood row hrow
      simp only [decide_eq_true_eq]
      intro heq
      rw [heq] at hslash
      rw [splitSlash?_none hsplit] at hslash
      cases hslash
    unfold processPrShardLine get_or_create_repository
    rw [hfind, hsplit]
  | inr h0 =>
    obtain ⟨row, hfind, hpr⟩ := h0
    obtain ⟨w, hw⟩ := Option.isSome_iff_exists.mp hpr
    unfold processPrShardLine
    rw [gocr_of_find hfind]
    show (get_or_create_pull_request db row.id r).2 = db
    rw [gocpr_of_find hw]

theorem process_pr_data_good {db : MDB} (hgood : goodDB db)
    (lines : List PRShardRec) : goodDB (process_pr_data lines db) := by
  induction lines generalizing db with
  | nil => exact hgood
  | cons r rest ih => exact ih (processPrShardLine_good hgood r)

theorem process_pr_data_settles (lines : List PRShardRec) (db : MDB) :
    ∀ r ∈ lines, settled (process_pr_data lines db) r := by
  induction lines generalizing db with
  | nil => intro r hr; cases hr
  | cons x rest ih =>
    intro r hr
    rw [List.mem_cons] at hr
    cases hr with
    | inl heq =>
      subst heq
      exact settled_mono (process_pr_data_grows rest (processPrShardLine db r))
        (processPrShardLine_settles db r)
    | inr hmem => exact ih (processPrShardLine db x) r hmem

theorem process_pr_data_noop {db : MDB} (hgood : goodDB db)
    {lines : List PRShardRec} (hs : ∀ r ∈ lines, settled db r) :
    process_pr_data lines db = db := by
  induction lines with
  | nil => rfl
  | cons x rest ih =>
    have hx : processPrShardLine db x = db :=
      processPrShardLine_noop hgood (hs x (by simp))
    unfold process_pr_data at ih ⊢
    rw [List.foldl_cons, hx]
    exact ih (fun r hr => hs r (by simp [hr]))

/-- Natural-key uniqueness invariant: no duplicate `full_name` among
repository rows, no duplicate `(repo_id, pr_number)` among pull-request
rows. -/
def uniqueKeys (db : MDB) : Prop :=
  (db.repositories.map (fun row => row.full_name)).Nodup ∧
  (db.pull_requests.map (fun row => (row.repo_id, row.pr_number))).Nodup

theorem uniqueKeys_empty : uniqueKeys emptyMDB := by
  constructor <;> simp [emptyMDB]

theorem processPrShardLine_unique {db : MDB} (h : uniqueKeys db)
    (r : PRShardRec) : uniqueKeys (processPrShardLine db r) := by
  unfold processPrShardLine
  cases hrepo : get_or_create_repository db r with
  | none => exact h
  | some p =>
    obtain ⟨i, db1⟩ := p
    show uniqueKeys (get_or_create_pull_request db1 i r).2
    have h1 : uniqueKeys db1 := by
      unfold get_or_create_repository at hrepo
      cases hfind : db.repositories.find?
          (fun w => w.full_name = r.repo_full_name) with
      | some row =>
        rw [hfind] at hrepo
        cases hrepo
        exact h
      | none =>
        rw [hfind] at hrepo
        cases hsplit : splitSlash? r.repo_full_name with
        | none => rw [hsplit] at hrepo; cases hrepo
        | some pr =>
          rw [hsplit] at hrepo
          cases hrepo
          refine ⟨?_, h.2⟩
          rw [List.map_append, List.nodup_append]
          refine ⟨h.1, by simp, ?_⟩
          intro a ha hb
          simp only [List.map_cons, List.map_nil, List.mem_singleton] at hb
          subst hb
          rw [List.find?_eq_none] at hfind
      
          obtain ⟨row, hrow, hname⟩ := List.mem_map.mp ha
          exact absurd hname (by simpa using hfind row hrow)
    unfold get_or_create_pull_request
    cases hprf : db1.pull_requests.find?
        (fun w => w.repo_id = i ∧ w.pr_number = r.pr_number) with
    | some w => exact h1
    | none =>
      refine ⟨h1.1, ?_⟩
      rw [List.map_append, List.nodup_append]
      refine ⟨h1.2, by simp, ?_⟩
      intro a ha hb
      simp only [List.map_cons, List.map_nil, List.mem_singleton] at hb
      subst hb
      rw [List.find?_eq_none] at hprf
      obtain ⟨row, hrow, hkey⟩ := List.mem_map.mp ha
      have := hprf row hrow
      simp only [decide_eq_true_eq, not_and] at this
      have h1' : row.repo_id = i := congrArg Prod.fst hkey
      have h2' : row.pr_number = r.pr_number := congrArg Prod.snd hkey
      exact this h1' h2'

theorem process_pr_data_unique {db : MDB} (h : uniqueKeys db)
    (lines : List PRShardRec) : uniqueKeys (process_pr_data lines db) := by
  induction lines generalizing db with
  | nil => exact h
  | cons r rest ih => exact ih (processPrShardLine_unique h r)

/-- Claim C7: materializing the same PR-data shard twice is idempotent —
the second pass finds every repository and pull-request row by its
natural-key lookup and inserts nothing — and the resulting dimension
tables hold exactly one `repositories` row per full name and one
`pull_requests` row per `(repo_id, pr_number)` pair. -/
theorem pr_materialization_idempotent (lines : List PRShardRec) :
    process_pr_data lines (process_pr_data lines emptyMDB) =
      process_pr_data lines emptyMDB ∧
    uniqueKeys (process_pr_data lines emptyMDB) := by
  refine ⟨?_, process_pr_data_unique uniqueKeys_empty lines⟩
  exact process_pr_data_noop
    (process_pr_data_good goodDB_empty lines)
    (process_pr_data_settles lines emptyMDB)

/-! ## Claim C2: the resumption set -/

theorem mem_insertName {acc : List String} {n m : String} :
    m ∈ insertName acc n ↔ m ∈ acc ∨ m = n := by
  unfold insertName
  by_cases h : n ∈ acc
  · rw [if_pos h]
    constructor
    · exact Or.inl
    · intro hc
      cases hc with
      | inl h1 => exact h1
      | inr h1 => exact h1 ▸ h
  · rw [if_neg h]
    simp

/-- The prefix of a shard file that the scan actually reads: everything
before the first malformed line. -/
def beforeMalformed : List ShardLine → List ShardLine
  | [] => []
  | .malformed :: _ => []
  | l :: rest => l :: beforeMalformed rest

theorem mem_collectFileRepos (lines : List ShardLine) (acc : List String)
    (n : String) :
    n ∈ collectFileRepos lines acc ↔
      n ∈ acc ∨ (n ≠ "" ∧ ShardLine.record (some n) ∈ beforeMalformed lines) := by
  induction lines generalizing acc with
  | nil => simp [collectFileRepos, beforeMalformed]
  | cons l rest ih =>
    cases l with
    | blank => simp [collectFileRepos, beforeMalformed, ih]
    | malformed => simp [collectFileRepos, beforeMalformed]
    | record r =>
      cases r with
      | none => simp [collectFileRepos, beforeMalformed, ih]
      | some m =>
        by_cases hm : m = ""
        · subst hm
          rw [show collectFileRepos (ShardLine.record (some "") :: rest) acc =
            collectFileRepos rest acc from by simp [collectFileRepos]]
          rw [ih]
          simp only [beforeMalformed, List.mem_cons]
          constructor
          · intro hc
            rcases hc with h1 | ⟨h1, h2⟩
            · exact Or.inl h1
            · exact Or.inr ⟨h1, Or.inr h2⟩
          · intro hc
            rcases hc with h1 | ⟨h1, h2 | h2⟩
            · exact Or.inl h1
            · exact absurd (by injection h2 with h3; injection h3) h1
            · exact Or.inr ⟨h1, h2⟩
        · rw [show collectFileRepos (ShardLine.record (some m) :: rest) acc =
            collectFileRepos rest (insertName acc m) from by
              simp [collectFileRepos, hm]]
          rw [ih]
          simp only [beforeMalformed, List.mem_cons, mem_insertName]
          constructor
          · intro hc
            rcases hc with (h1 | h1) | ⟨h1, h2⟩
            · exact Or.inl h1
            · exact Or.inr ⟨h1 ▸ hm, Or.inl (by rw [h1])⟩
            · exact Or.inr ⟨h1, Or.inr h2⟩
          · intro hc
            rcases hc with h1 | ⟨h1, h2 | h2⟩
            · exact Or.inl (Or.inl h1)
            · exact Or.inl (Or.inr (by injection h2 with h3; injection h3))
            · exact Or.inr ⟨h1, h2⟩

theorem mem_scan_fold (ks : List ShardKind) (fs : ShardFs) (acc : List String)
    (n : String) :
    n ∈ ks.foldl (fun acc k =>
        match fs k with
        | none => acc
        | some lines => collectFileRepos lines acc) acc ↔
      n ∈ acc ∨ (n ≠ "" ∧ ∃ k ∈ ks, ∃ lines, fs k = some lines ∧
        ShardLine.record (some n) ∈ beforeMalformed lines) := by
  induction ks generalizing acc with
  | nil => simp
  | cons k rest ih =>
    rw [List.foldl_cons, ih]
    cases hk : fs k with
    | none =>
      constructor
      · intro hc
        rcases hc with h1 | ⟨h1, k', hk', lines, hl, hmem⟩
        · exact Or.inl h1
        · exact Or.inr ⟨h1, k', by simp [hk'], lines, hl, hmem⟩
      · intro hc
        rcases hc with h1 | ⟨h1, k', hk', lines, hl, hmem⟩
        · exact Or.inl h1
        · simp only [List.mem_cons] at hk'
          rcases hk' with h2 | h2
          · rw [h2, hk] at hl; cases hl
          · exact Or.inr ⟨h1, k', h2, lines, hl, hmem⟩
    | some ls =>
      rw [mem_collectFileRepos]
      constructor
      · intro hc
        rcases hc with (h1 | ⟨h1, hmem⟩) | ⟨h1, k', hk', lines, hl, hmem⟩
        · exact Or.inl h1
        · exact Or.inr ⟨h1, k, by simp, ls, hk, hmem⟩
        · exact Or.inr ⟨h1, k', by simp [hk'], lines, hl, hmem⟩
      · intro hc
        rcases hc with h1 | ⟨h1, k', hk', lines, hl, hmem⟩
        · exact Or.inl (Or.inl h1)
        · simp only [List.mem_cons] at hk'
          rcases hk' with h2 | h2
          · rw [h2, hk] at hl
            injection hl with hl
            exact Or.inl (Or.inr ⟨h1, hl ▸ hmem⟩)
          · exact Or.inr ⟨h1, k', h2, lines, hl, hmem⟩

/-- Claim C2 (amended): `get_processed_repos_set` contains exactly the
non-empty `repo_full_name` values appearing in a record of one of the
six scanned shard kinds (`pr_data`, `commits`, `file_changes`,
`function_changes`, `class_changes`, `imports`) before that file's first
malformed line; the `diff_hunks` and `review_comments` shards — though
themselves carrying `repo_full_name` — are not scanned. -/
theorem processed_repos_contents (fs : ShardFs) (n : String) :
    n ∈ get_processed_repos_set fs ↔
      n ≠ "" ∧ ∃ k ∈ scannedShardKinds, ∃ lines, fs k = some lines ∧
        ShardLine.record (some n) ∈ beforeMalformed lines := by
  unfold get_processed_repos_set
  rw [mem_scan_fold]
  simp

/-- A shard state whose only record lives in the `review_comments` shard. -/
def fsCE : ShardFs := fun k =>
  match k with
  | .reviewCommentsK => some [ShardLine.record (some "o/r")]
  | _ => none

/-- What the claim asserts a repository needs in order to count as
completed: its name appears as the repository-name field of some record
in any previously written shard file, of any fact kind. -/
def appearsInAnyShard (fs : ShardFs) (n : String) : Prop :=
  ∃ k lines, fs k = some lines ∧ ShardLine.record (some n) ∈ lines

/-- Counterexample for C2: repository `o/r` appears (as `repo_full_name`)
in the `review_comments` shard, yet `get_processed_repos_set` does not
contain it — the function scans only six of the eight shard kinds. -/
theorem processed_repos_counterexample :
    appearsInAnyShard fsCE "o/r" ∧ "o/r" ∉ get_processed_repos_set fsCE :=
  ⟨⟨.reviewCommentsK, [ShardLine.record (some "o/r")], rfl, by simp⟩,
    by decide⟩

/-! ## Claim C1: deduplication policy of the change detectors -/

/-- Invariant of the dedup dictionary: every entry is stored under the
key computed from its fact. -/
def keyInv (d : List (String × ChangeFact)) : Prop :=
  ∀ p ∈ d, p.1 = factKey p.2

theorem dedupStep_keyInv {d : List (String × ChangeFact)}
    (h : keyInv d) (f : ChangeFact) : keyInv (dedupStep d f) := by
  unfold dedupStep
  by_cases hfound : (d.find? (fun p => p.1 = factKey f)).isSome
  · rw [if_pos hfound]
    by_cases hdc : f.source = "diff_content"
    · rw [if_pos hdc]
      intro p hp
      obtain ⟨q, hq, hqp⟩ := List.mem_map.mp hp
      by_cases hk : q.1 = factKey f
      · rw [if_pos hk] at hqp
        rw [← hqp]
        exact hk
      · rw [if_neg hk] at hqp
        exact hqp ▸ h q hq
    · rw [if_neg hdc]
      exact h
  · rw [if_neg hfound]
    intro p hp
    rw [List.mem_append] at hp
    cases hp with
    | inl h1 => exact h p h1
    | inr h1 =>
      simp only [List.mem_singleton] at h1
      rw [h1]
  
theorem fold_keyInv {d : List (String × ChangeFact)} (h : keyInv d)
    (facts : List ChangeFact) : keyInv (facts.foldl dedupStep d) := by
  induction facts generalizing d with
  | nil => exact h
  | cons f rest ih => exact ih (dedupStep_keyInv h f)

theorem dedupStep_keys_found {d : List (String × ChangeFact)} {f : ChangeFact}
    (hfound : (d.find? (fun p => p.1 = factKey f)).isSome) :
    (dedupStep d f).map Prod.fst = d.map Prod.fst := by
  unfold dedupStep
  rw [if_pos hfound]
  by_cases hdc : f.source = "diff_content"
  · rw [if_pos hdc, List.map_map]
    refine List.map_congr_left ?_
    intro p _
    by_cases hk : p.1 = factKey f
    · simp [hk]
    · simp [hk]
  · rw [if_neg hdc]

theorem dedupStep_keys_new {d : List (String × ChangeFact)} {f : ChangeFact}
    (hnew : d.find? (fun p => p.1 = factKey f) = none) :
    (dedupStep d f).map Prod.fst = d.map Prod.fst ++ [factKey f] := by
  unfold dedupStep
  rw [if_neg (by rw [hnew]; simp)]
  simp

theorem fold_keys_nodup {d : List (String × ChangeFact)}
    (h : (d.map Prod.fst).Nodup) (facts : List ChangeFact) :
    ((facts.foldl dedupStep d).map Prod.fst).Nodup := by
  induction facts generalizing d with
  | nil => exact h
  | cons f rest ih =>
    refine ih ?_
    cases hfound : d.find? (fun p => p.1 = factKey f) with
    | some w => rw [dedupStep_keys_found (by rw [hfound]; rfl)]; exact h
    | none =>
      rw [dedupStep_keys_new hfound, List.nodup_append]
      refine ⟨h, by simp, ?_⟩
      intro a ha hb
      simp only [List.mem_singleton] at hb
      subst hb
      rw [List.find?_eq_none] at hfound
      obtain ⟨q, hq, hkey⟩ := List.mem_map.mp ha
      exact absurd (by simpa using hkey) (by simpa using hfound q hq)

theorem dedupStep_mem {d : List (String × ChangeFact)} {f : ChangeFact}
    {q : String × ChangeFact} (hq : q ∈ dedupStep d f) : q ∈ d ∨ q.2 = f := by
  unfold dedupStep at hq
  by_cases hfound : (d.find? (fun p => p.1 = factKey f)).isSome
  · rw [if_pos hfound] at hq
    by_cases hdc : f.source = "diff_content"
    · rw [if_pos hdc] at hq
      obtain ⟨w, hw, hwq⟩ := List.mem_map.mp hq
      by_cases hk : w.1 = factKey f
      · rw [if_pos hk] at hwq
        right
        rw [← hwq]
      · rw [if_neg hk] at hwq
        exact Or.inl (hwq ▸ hw)
    · rw [if_neg hdc] at hq
      exact Or.inl hq
  · rw [if_neg hfound] at hq
    rw [List.mem_append] at hq
    cases hq with
    | inl h1 => exact Or.inl h1
    | inr h1 =>
      simp only [List.mem_singleton] at h1
      right
      rw [h1]

theorem fold_mem {d : List (String × ChangeFact)} {facts : List ChangeFact}
    {q : String × ChangeFact} (hq : q ∈ facts.foldl dedupStep d) :
    q ∈ d ∨ q.2 ∈ facts := by
  induction facts generalizing d with
  | nil => exact Or.inl hq
  | cons f rest ih =>
    rcases ih hq with h1 | h1
    · rcases dedupStep_mem h1 with h2 | h2
      · exact Or.inl h2
      · exact Or.inr (by simp [h2])
    · exact Or.inr (by simp [h1])

theorem dedupStep_dc_stable {d : List (String × ChangeFact)} {k : String}
    (h : ∃ g, (k, g) ∈ d ∧ g.source = "diff_content") (f : ChangeFact) :
    ∃ g', (k, g') ∈ dedupStep d f ∧ g'.source = "diff_content" := by
  obtain ⟨g, hg, hgdc⟩ := h
  unfold dedupStep
  by_cases hfound : (d.find? (fun p => p.1 = factKey f)).isSome
  · rw [if_pos hfound]
    by_cases hdc : f.source = "diff_content"
    · rw [if_pos hdc]
      by_cases hk : k = factKey f
      · refine ⟨f, List.mem_map.mpr ⟨(k, g), hg, ?_⟩, hdc⟩
        simp [hk]
      · refine ⟨g, List.mem_map.mpr ⟨(k, g), hg, ?_⟩, hgdc⟩
        simp [hk]
    · rw [if_neg hdc]
      exact ⟨g, hg, hgdc⟩
  · rw [if_neg hfound]
    exact ⟨g, List.mem_append_left _ hg, hgdc⟩

theorem dedupStep_dc_set {d : List (String × ChangeFact)} {f : ChangeFact}
    (hdc : f.source = "diff_content") :
    ∃ g', (factKey f, g') ∈ dedupStep d f ∧ g'.source = "diff_content" := by
  unfold dedupStep
  by_cases hfound : (d.find? (fun p => p.1 = factKey f)).isSome
  · rw [if_pos hfound, if_pos hdc]
    obtain ⟨w, hw⟩ := Option.isSome_iff_exists.mp hfound
    have hwmem : w ∈ d := List.mem_of_find?_eq_some hw
    have hwk : w.1 = factKey f := by simpa using List.find?_some hw
    refine ⟨f, List.mem_map.mpr ⟨w, hwmem, ?_⟩, hdc⟩
    rw [if_pos hwk, hwk]
  · rw [if_neg hfound]
    exact ⟨f, List.mem_append_right _ (by simp), hdc⟩

theorem fold_dc {facts : List ChangeFact} {d : List (String × ChangeFact)}
    {k : String}
    (h : (∃ f ∈ facts, f.source = "diff_content" ∧ factKey f = k) ∨
      (∃ g, (k, g) ∈ d ∧ g.source = "diff_content")) :
    ∃ g', (k, g') ∈ facts.foldl dedupStep d ∧
      g'.source = "diff_content" := by
  induction facts generalizing d with
  | nil =>
    rcases h with ⟨f, hf, _⟩ | h1
    · cases hf
    · exact h1
  | cons f rest ih =>
    rcases h with ⟨f', hf', hdc', hk'⟩ | h1
    · rw [List.mem_cons] at hf'
      rcases hf' with heq | hmem
      · subst heq
        exact ih (Or.inr (hk' ▸ dedupStep_dc_set hdc'))
      · exact ih (Or.inl ⟨f', hmem, hdc', hk'⟩)
    · exact ih (Or.inr (dedupStep_dc_stable h1 f))

theorem nodup_keys_val {d : List (String × ChangeFact)}
    (hnd : (d.map Prod.fst).Nodup) {k : String} {a b : ChangeFact}
    (ha : (k, a) ∈ d) (hb : (k, b) ∈ d) : a = b := by
  induction d with
  | nil => cases ha
  | cons p rest ih =>
    rw [List.map_cons, List.nodup_cons] at hnd
    rw [List.mem_cons] at ha hb
    rcases ha with ha1 | ha1 <;> rcases hb with hb1 | hb1
    · exact congrArg Prod.snd (ha1.trans hb1.symm)
    · exact absurd (List.mem_map.mpr ⟨(k, b), hb1, by rw [← ha1]⟩) hnd.1
    · exact absurd (List.mem_map.mpr ⟨(k, a), ha1, by rw [← hb1]⟩) hnd.1
    · exact ih hnd.2 ha1 hb1

/-- The three dedup properties, generically over any collected fact
list. -/
theorem dedupFacts_main (facts : List ChangeFact) :
    ((dedupFacts facts).map factKey).Nodup ∧
    (∀ g ∈ dedupFacts facts, g ∈ facts) ∧
    (∀ f ∈ facts, f.source = "diff_content" →
      ∀ g ∈ dedupFacts facts, factKey g = factKey f →
        g.source = "diff_content") := by
  have hinv : keyInv (facts.foldl dedupStep []) :=
    fold_keyInv (by intro p hp; cases hp) facts
  have hkeys : ((facts.foldl dedupStep []).map Prod.fst).Nodup :=
    fold_keys_nodup (by simp) facts
  have hmapeq : (dedupFacts facts).map factKey =
      (facts.foldl dedupStep []).map Prod.fst := by
    unfold dedupFacts
    rw [List.map_map]
    refine List.map_congr_left ?_
    intro p hp
    exact (hinv p hp).symm
  refine ⟨hmapeq ▸ hkeys, ?_, ?_⟩
  · intro g hg
    obtain ⟨q, hq, hq2⟩ := List.mem_map.mp hg
    rcases fold_mem hq with h1 | h1
    · cases h1
    · exact hq2 ▸ h1
  · intro f hf hdc g hg hkey
    obtain ⟨q, hq, hq2⟩ := List.mem_map.mp hg
    have hqk : q.1 = factKey g := by rw [← hq2]; exact hinv q hq
    obtain ⟨g', hg', hg'dc⟩ :=
      @fold_dc facts [] (factKey f) (Or.inl ⟨f, hf, hdc, rfl⟩)
    have hq1f : q.1 = factKey f := hqk.trans hkey
    have hqmem : (factKey f, q.2) ∈ List.foldl dedupStep [] facts := by
      rw [← hq1f]
      simpa using hq
    have hval : q.2 = g' := nodup_keys_val hkeys hqmem hg'
    rw [hq2.symm.trans hval]
    exact hg'dc

/-- Claim C1: for every patch text and every language string,
`detect_function_changes` and `detect_class_changes` keep at most one
fact per `(name, language)` key (the keys of the returned facts are
pairwise distinct), every returned fact is one of the collected facts,
and whenever any collected fact at a key has source `diff_content`, the
surviving fact at that key has source `diff_content` — so a
diff-content-sourced fact overrides a context-sourced one regardless of
discovery order, and a later context-sourced fact never replaces an
existing entry. -/
theorem change_dedup_policy (patch language : String) :
    (((detect_function_changes patch language).map factKey).Nodup ∧
      ∀ g ∈ detect_function_changes patch language,
        g ∈ functionFactsCollected patch language) ∧
    (∀ f ∈ functionFactsCollected patch language,
      f.source = "diff_content" →
      ∀ g ∈ detect_function_changes patch language,
        factKey g = factKey f → g.source = "diff_content") ∧
    (((detect_class_changes patch language).map factKey).Nodup ∧
      ∀ g ∈ detect_class_changes patch language,
        g ∈ classFactsCollected patch language) ∧
    (∀ f ∈ classFactsCollected patch language,
      f.source = "diff_content" →
      ∀ g ∈ detect_class_changes patch language,
        factKey g = factKey f → g.source = "diff_content") := by
  unfold detect_function_changes detect_class_changes
    functionFactsCollected classFactsCollected
  cases langCfg? language with
  | none =>
    refine ⟨⟨by simp, ?_⟩, ?_, ⟨by simp, ?_⟩, ?_⟩ <;>
      intro g hg <;> cases hg
  | some cfg =>
    obtain ⟨h1, h2, h3⟩ :=
      dedupFacts_main (collectFacts cfg.functionPatterns language patch)
    obtain ⟨h4, h5, h6⟩ :=
      dedupFacts_main (collectFacts cfg.classPatterns language patch)
    exact ⟨⟨h1, h2⟩, h3, ⟨h4, h5⟩, h6⟩

/-- The patch of the dedup-precedence scenario: the hunk context produces
a `context`-sourced `modified` fact for `foo`, and a later `+` line
produces a `diff_content`-sourced `added` fact for the same key. -/
def dedupScenarioPatch : String := "@@ -1,2 +1,3 @@ def foo(\n+def foo():"

def dedupScenarioCtxFact : ChangeFact :=
  { name := "foo", change_type := "modified", line_content := "def foo(",
    source := "context", language := "python" }

def dedupScenarioDcFact : ChangeFact :=
  { name := "foo", change_type := "added", line_content := "def foo():",
    source := "diff_content", language := "python" }

/-- Witness for C1: on the scenario patch the collected facts are the
context fact followed by the diff-content fact, and the final fact set
holds exactly one entry for `foo` — the diff-content-sourced `added`
one; its source is also obtained by applying the dedup-policy theorem. -/
theorem change_dedup_policy_witness :
    functionFactsCollected dedupScenarioPatch ("python") =
      [dedupScenarioCtxFact, dedupScenarioDcFact] ∧
    detect_function_changes dedupScenarioPatch ("python") =
      [dedupScenarioDcFact] ∧
    dedupScenarioDcFact.source = "diff_content" :=
  ⟨by decide, by decide,
    (change_dedup_policy dedupScenarioPatch ("python")).2.1
      dedupScenarioDcFact (by decide) rfl
      dedupScenarioDcFact (by decide) rfl⟩

/-! ## Claim C10: `#` anywhere makes a Python line a comment line

The comment check searches `#.*$` unanchored: on a newline-free subject
the search succeeds exactly when the subject contains `#`, because `.*`
can greedily consume the rest of the line and `$` accepts at its end.
The lemmas below establish the success direction against the matcher. -/

theorem matRe_dot_nil (flen S : Nat) (caps : Caps)
    (k : List Char → Caps → Option Caps) :
    matRe flen S .dot [] caps k = none := by
  cases S <;> rfl

theorem matRe_succ_star (flen S : Nat) (g : Bool) (r : Re) (rem : List Char)
    (caps : Caps) (k : List Char → Caps → Option Caps) :
    matRe flen (S + 1) (.star g r) rem caps k =
      (let once := matRe flen S r rem caps (fun r2 c2 =>
        if r2.length < rem.length then matRe flen S (.star g r) r2 c2 k
        else none)
      if g then
        match once with
        | some res => some res
        | none => k rem caps
      else
        match k rem caps with
        | some res => some res
        | none => once) := rfl

theorem matRe_succ_dot_cons (flen S : Nat) (x : Char) (xs : List Char)
    (caps : Caps) (k : List Char → Caps → Option Caps) :
    matRe flen (S + 1) .dot (x :: xs) caps k =
      if x = '\n' then none else k xs caps := rfl

theorem matRe_succ_ch_cons (flen S : Nat) (c x : Char) (xs : List Char)
    (caps : Caps) (k : List Char → Caps → Option Caps) :
    matRe flen (S + 1) (.ch c) (x :: xs) caps k =
      if x = c then k xs caps else none := rfl

theorem matRe_succ_seq (flen S : Nat) (a b : Re) (rem : List Char)
    (caps : Caps) (k : List Char → Caps → Option Caps) :
    matRe flen (S + 1) (.seq a b) rem caps k =
      matRe flen S a rem caps (fun r2 c2 => matRe flen S b r2 c2 k) := rfl

theorem matRe_succ_eol (flen S : Nat) (rem : List Char) (caps : Caps)
    (k : List Char → Caps → Option Caps) :
    matRe flen (S + 1) .eol rem caps k =
      if rem = [] ∨ rem = ['\n'] then k rem caps else none := rfl

theorem matRe_succ_eps (flen S : Nat) (rem : List Char) (caps : Caps)
    (k : List Char → Caps → Option Caps) :
    matRe flen (S + 1) .eps rem caps k = k rem caps := rfl

/-- Greedy `.*` consumes a whole newline-free input, so the continuation
fires at the empty remainder. -/
theorem starDot_isSome (rem : List Char) : ∀ (flen f : Nat) (caps : Caps)
    (k : List Char → Caps → Option Caps), '\n' ∉ rem →
    rem.length + 2 ≤ f → (k [] caps).isSome →
    (matRe flen f (.star true .dot) rem caps k).isSome := by
  induction rem with
  | nil =>
    intro flen f caps k hnl hf hk
    obtain ⟨S, rfl⟩ : ∃ S, f = S + 1 := ⟨f - 1, by omega⟩
    rw [matRe_succ_star]
    simp only [matRe_dot_nil]
    exact hk
  | cons c cs ih =>
    intro flen f caps k hnl hf hk
    obtain ⟨S, rfl⟩ : ∃ S, f = S + 1 := ⟨f - 1, by omega⟩
    obtain ⟨T, hT⟩ : ∃ T, S = T + 1 := ⟨S - 1, by simp at hf; omega⟩
    have hc : ¬c = '\n' := fun h => hnl (h ▸ List.mem_cons_self c cs)
    have honce : (matRe flen S .dot (c :: cs) caps (fun r2 c2 =>
        if r2.length < (c :: cs).length then
          matRe flen S (.star true .dot) r2 c2 k
        else none)).isSome := by
      rw [hT, matRe_succ_dot_cons, if_neg hc, if_pos (by simp)]
      exact ih flen (T + 1) caps k (fun h => hnl (List.mem_cons_of_mem _ h))
        (by simp at hf; omega) hk
    rw [matRe_succ_star]
    obtain ⟨res, hres⟩ := Option.isSome_iff_exists.mp honce
    simp only [hres]
    rfl

/-- `#.*$` matches at a `#` on a newline-free remainder. -/
theorem hash_head_isSome (cs : List Char) (flen f : Nat)
    (hnl : '\n' ∉ cs) (hf : cs.length + 8 ≤ f) :
    (matRe flen f pyComment1 ('#' :: cs) []
      (fun _ c => some c)).isSome := by
  obtain ⟨a, rfl⟩ : ∃ a, f = a + 1 := ⟨f - 1, by omega⟩
  obtain ⟨b, hb⟩ : ∃ b, a = b + 1 := ⟨a - 1, by omega⟩
  rw [show pyComment1 = .seq (.ch '#')
    (.seq (.star true .dot) (.seq .eol .eps)) from rfl]
  rw [matRe_succ_seq, hb, matRe_succ_ch_cons, if_pos rfl]
  rw [show b + 1 = b + 1 from rfl]
  obtain ⟨d, hd⟩ : ∃ d, b = d + 1 := ⟨b - 1, by omega⟩
  rw [matRe_succ_seq]
  refine starDot_isSome cs flen b [] _ hnl (by omega) ?_
  obtain ⟨e, he⟩ : ∃ e, d = e + 1 := ⟨d - 1, by omega⟩
  rw [hd, matRe_succ_seq, he, matRe_succ_eol, if_pos (Or.inl rfl)]
  obtain ⟨u, hu⟩ : ∃ u, e = u + 1 := ⟨e - 1, by omega⟩
  rw [hu, matRe_succ_eps]
  rfl

theorem searchAux_cons (flen fuel : Nat) (re : Re) (x : Char)
    (xs : List Char) :
    searchAux flen fuel re (x :: xs) =
      match matRe flen fuel re (x :: xs) [] (fun _ c => some c) with
      | some c => some c
      | none => searchAux flen fuel re xs := rfl

theorem searchAux_hash_isSome (l : List Char) : ∀ (flen fuel : Nat),
    '#' ∈ l → '\n' ∉ l → l.length + 8 ≤ fuel →
    (searchAux flen fuel pyComment1 l).isSome := by
  induction l with
  | nil => intro flen fuel hl _ _; cases hl
  | cons c cs ih =>
    intro flen fuel hl hnl hf
    rw [searchAux_cons]
    cases hm : matRe flen fuel pyComment1 (c :: cs) [] (fun _ c => some c) with
    | some caps => rfl
    | none =>
      have hcne : ¬c = '#' := by
        intro h
        subst h
        exact absurd hm (by
          have := hash_head_isSome cs flen fuel
            (fun hh => hnl (List.mem_cons_of_mem _ hh)) (by simp at hf; omega)
          intro hcontra
          rw [hcontra] at this
          cases this)
      have hmem : '#' ∈ cs := by
        rcases List.mem_cons.mp hl with h1 | h1
        · exact absurd h1.symm hcne
        · exact h1
      exact ih flen fuel hmem (fun hh => hnl (List.mem_cons_of_mem _ hh))
        (by simp at hf ⊢; omega)

/-- `re.search(r'#.*$', s)` succeeds on every newline-free string
containing `#`. -/
theorem reSearch_hash (s : String) (hl : '#' ∈ s.data)
    (hnl : '\n' ∉ s.data) : (reSearch pyComment1 s).isSome := by
  unfold reSearch
  refine searchAux_hash_isSome s.data _ _ hl hnl ?_
  unfold fuelFor
  rw [show pyComment1.size = 8 from rfl]
  omega

theorem mem_dropWhile_of_not {c : Char} {p : Char → Bool} (hc : p c = false) :
    ∀ {l : List Char}, c ∈ l → c ∈ l.dropWhile p := by
  intro l
  induction l with
  | nil => intro h; cases h
  | cons a as ih =>
    intro h
    by_cases hpa : p a = true
    · rw [List.dropWhile_cons_of_pos hpa]
      rcases List.mem_cons.mp h with h1 | h1
      · rw [h1] at hc; rw [hc] at hpa; cases hpa
      · exact ih h1
    · rw [List.dropWhile_cons_of_neg hpa]
      exact h

theorem mem_of_mem_dropWhile {c : Char} {p : Char → Bool} :
    ∀ {l : List Char}, c ∈ l.dropWhile p → c ∈ l := by
  intro l
  induction l with
  | nil => intro h; cases h
  | cons a as ih =>
    intro h
    by_cases hpa : p a = true
    · rw [List.dropWhile_cons_of_pos hpa] at h
      exact List.mem_cons_of_mem _ (ih h)
    · rw [List.dropWhile_cons_of_neg hpa] at h
      exact h

theorem mem_pyStrip {c : Char} (hc : isSpaceP c = false) {l : List Char}
    (h : c ∈ l) : c ∈ pyStrip l := by
  unfold pyStrip
  rw [List.mem_reverse]
  exact mem_dropWhile_of_not hc (List.mem_reverse.mpr
    (mem_dropWhile_of_not hc h))

theorem pyStrip_subset {c : Char} {l : List Char} (h : c ∈ pyStrip l) :
    c ∈ l := by
  unfold pyStrip at h
  exact mem_of_mem_dropWhile
    (List.mem_reverse.mp (mem_of_mem_dropWhile (List.mem_reverse.mp h)))

/-- Claim C10: in `extract_imports` for language `python`, the comment
check searches `#.*$` unanchored over the trimmed line, so any line (a
`split('\n')` piece, hence newline-free) containing a `#` anywhere is
classified as a comment line and contributes no import fact, whatever
its line number. -/
theorem python_hash_comment_line (line : String)
    (hnl : '\n' ∉ line.data) (hc : '#' ∈ line.data) :
    isCommentLine pythonConfig (pyStripS line) = true ∧
    ∀ n, lineImports ("python") pythonConfig n line = Except.ok none := by
  have hcs : '#' ∈ pyStrip line.data := mem_pyStrip (by decide) hc
  have hnls : '\n' ∉ pyStrip line.data := fun h => hnl (pyStrip_subset h)
  have h1 : (reSearch pyComment1 (pyStripS line)).isSome :=
    reSearch_hash (pyStripS line) hcs hnls
  have hcomment : isCommentLine pythonConfig (pyStripS line) = true := by
    unfold isCommentLine
    rw [show pythonConfig.commentPatterns =
      [pyComment1, pyComment2, pyComment3] from rfl]
    simp [h1]
  have hne : ¬pyStripS line = "" := by
    intro h
    have hdata : pyStrip line.data = ([] : List Char) := by
      have := congrArg String.data h
      simpa [pyStripS] using this
    rw [hdata] at hcs
    cases hcs
  refine ⟨hcomment, fun n => ?_⟩
  unfold lineImports
  simp [hne, hcomment]

def hashWitnessLine : String := "import os  # note"

/-- Witness for C10: the valid import statement followed by a trailing
comment is classified as a comment line and yields no import fact. -/
theorem python_hash_comment_line_witness :
    isCommentLine pythonConfig (pyStripS hashWitnessLine) = true ∧
    lineImports ("python") pythonConfig 1 hashWitnessLine = Except.ok none :=
  ⟨(python_hash_comment_line hashWitnessLine (by decide) (by decide)).1,
   (python_hash_comment_line hashWitnessLine (by decide) (by decide)).2 1⟩

/-! ## Claim C6: repository completion requires a processed commit -/

theorem ppd_false_of_no_commits (env : CrawlEnv) (repo : RepoInfo)
    (pr : PRItem)
    (h : env.commitsOf (repo.owner ++ "/" ++ repo.name) pr.number = []) :
    process_pr_data_crawl env repo pr = (false, []) := by
  unfold process_pr_data_crawl
  rw [if_pos h]

theorem ppd_true_commits {env : CrawlEnv} {repo : RepoInfo} {pr : PRItem}
    {recs : List ShardRec}
    (h : process_pr_data_crawl env repo pr = (true, recs)) :
    env.commitsOf (repo.owner ++ "/" ++ repo.name) pr.number ≠ [] := by
  intro hempty
  rw [ppd_false_of_no_commits env repo pr hempty] at h
  exact absurd (congrArg Prod.fst h) (by simp)

theorem crawlPrLoop_pos (env : CrawlEnv) (repo : RepoInfo) :
    ∀ (prs : List PRItem) (count : Nat) (stats : CStats)
      (log : List ShardRec),
      (crawlPrLoop env repo prs count stats log).1 = count ∨
      ∃ pr ∈ prs, (process_pr_data_crawl env repo pr).1 = true := by
  intro prs
  induction prs with
  | nil => intro count stats log; exact Or.inl rfl
  | cons pr rest ih =>
    intro count stats log
    cases hp : process_pr_data_crawl env repo pr with
    | mk b recs =>
      cases b with
      | true => exact Or.inr ⟨pr, by simp, by simp [hp]⟩
      | false =>
        have hstep : crawlPrLoop env repo (pr :: rest) count stats log =
            crawlPrLoop env repo rest count stats (log ++ recs) := by
          conv_lhs => unfold crawlPrLoop
          rw [hp]
        rw [hstep]
        rcases ih count stats (log ++ recs) with h1 | ⟨pr', hpr', h2⟩
        · exact Or.inl h1
        · exact Or.inr ⟨pr', by simp [hpr'], h2⟩

theorem get_pull_requests_fst (pages : List (Option (List PRItem)))
    (maxPrs : Option Nat) (skip : Nat) (stats : CStats) :
    (get_pull_requests pages maxPrs skip stats).1 =
      (gprLoop skip maxPrs pages 1 []).1 := by
  unfold get_pull_requests
  cases h : gprLoop skip maxPrs pages 1 [] with
  | mk l b => cases b <;> simp

/-- Evidence that completing repository `n` was legitimate: some enumerated
pull request has a non-empty commit listing. -/
def completionEvidence (env : CrawlEnv) (maxPrs : Option Nat)
    (n : String) : Prop :=
  ∃ pr ∈ (gprLoop 200 maxPrs (env.prPages n) 1 []).1,
    env.commitsOf n pr.number ≠ []

theorem processRepo_processed {env : CrawlEnv} {maxPrs : Option Nat}
    {st : CrawlState} {repo : RepoInfo} {n : String}
    (h : n ∈ (processRepo env maxPrs st repo).processed) :
    n ∈ st.processed ∨ completionEvidence env maxPrs n := by
  unfold processRepo at h
  by_cases hmem : repo.owner ++ "/" ++ repo.name ∈ st.processed
  · rw [if_pos hmem] at h
    exact Or.inl h
  · rw [if_neg hmem] at h
    cases hgpr : get_pull_requests
        (env.prPages (repo.owner ++ "/" ++ repo.name)) maxPrs 200
        (attemptStats st.stats) with
    | mk prs stats1 =>
      rw [hgpr] at h
      dsimp only [] at h
      by_cases hprs : prs = []
      · rw [if_pos hprs] at h
        exact Or.inl h
      · rw [if_neg hprs] at h
        cases hloop : crawlPrLoop env repo prs 0 stats1 st.log with
        | mk count rest2 =>
          rw [hloop] at h
          dsimp only [] at h
          by_cases hcount : 0 < count
          · rw [if_pos hcount] at h
            simp only [] at h
            rcases mem_insertName.mp h with h1 | h1
            · exact Or.inl h1
            · subst h1
              rcases crawlPrLoop_pos env repo prs 0 stats1 st.log with hz | hev
              · rw [hloop] at hz
                simp only [] at hz
                omega
              · obtain ⟨pr, hpr, htrue⟩ := hev
                cases hres : process_pr_data_crawl env repo pr with
                | mk b recs =>
                  rw [hres] at htrue
                  simp only [] at htrue
                  subst htrue
                  refine Or.inr ⟨pr, ?_, ppd_true_commits hres⟩
                  rw [← get_pull_requests_fst
                    (env.prPages (repo.owner ++ "/" ++ repo.name)) maxPrs 200
                    (attemptStats st.stats), hgpr]
                  exact hpr
          · rw [if_neg hcount] at h
            exact Or.inl h

theorem crawlBatchLoop_processed {env : CrawlEnv} {target : Nat}
    {maxPrs : Option Nat} :
    ∀ {batch : List RepoInfo} {st : CrawlState} {n : String},
      n ∈ (crawlBatchLoop env target maxPrs batch st).processed →
      n ∈ st.processed ∨ completionEvidence env maxPrs n := by
  intro batch
  induction batch with
  | nil => intro st n h; exact Or.inl h
  | cons repo rest ih =>
    intro st n h
    unfold crawlBatchLoop at h
    by_cases hdone : target ≤ st.success
    · rw [if_pos hdone] at h
      exact Or.inl h
    · rw [if_neg hdone] at h
      rcases ih h with h1 | h1
      · exact processRepo_processed h1
      · exact Or.inr h1

theorem crawlLoop_processed {env : CrawlEnv} {target : Nat}
    {maxPrs : Option Nat} :
    ∀ (fuel startIdx : Nat) {st : CrawlState} {n : String},
      n ∈ (crawlLoop env target maxPrs fuel startIdx st).processed →
      n ∈ st.processed ∨ completionEvidence env maxPrs n := by
  intro fuel
  induction fuel with
  | zero => intro startIdx st n h; exact Or.inl h
  | succ f ih =>
    intro startIdx st n h
    unfold crawlLoop at h
    by_cases hdone : target ≤ st.success
    · rw [if_pos hdone] at h
      exact Or.inl h
    · rw [if_neg hdone] at h
      by_cases hbatch : load_repos_from_file env.repoEntries startIdx 50 = []
      · rw [if_pos hbatch] at h
        exact Or.inl h
      · rw [if_neg hbatch] at h
        by_cases h2 : target ≤ (crawlBatchLoop env target maxPrs
            (load_repos_from_file env.repoEntries startIdx 50) st).success
        · rw [if_pos h2] at h
          exact crawlBatchLoop_processed h
        · rw [if_neg h2] at h
          by_cases h3 : (load_repos_from_file env.repoEntries startIdx 50).length < 50
          · rw [if_pos h3] at h
            exact crawlBatchLoop_processed h
          · rw [if_neg h3] at h
            rcases ih (startIdx + 50) h with h4 | h4
            · exact crawlBatchLoop_processed h4
            · exact Or.inr h4

/-- Claim C6: a repository name is in the crawl's processed set only when
it was already completed in a previous run (it is in the resumption set)
or some enumerated pull request of that repository had a non-empty commit
listing — and a pull request whose commit listing comes back empty is
failed by `process_pr_data` immediately, with no records written, so it
never contributes to completion. -/
theorem crawl_completion (env : CrawlEnv) (target : Nat)
    (maxPrs : Option Nat) (n : String)
    (h : n ∈ (crawl_language env target maxPrs).processed) :
    (n ∈ get_processed_repos_set env.shardFs ∨
      completionEvidence env maxPrs n) ∧
    (∀ repo pr, env.commitsOf (repo.owner ++ "/" ++ repo.name) pr.number = [] →
      process_pr_data_crawl env repo pr = (false, [])) := by
  refine ⟨?_, fun repo pr hpr => ppd_false_of_no_commits env repo pr hpr⟩
  unfold crawl_language at h
  by_cases hdone : target ≤ (get_processed_repos_set env.shardFs).length
  · rw [if_pos hdone] at h
    exact Or.inl h
  · rw [if_neg hdone] at h
    exact crawlLoop_processed _ 0 h

/-- A minimal crawl environment: one listed repository `o/r` with one
merged pull request holding one commit. -/
def crawlWitnessEnv : CrawlEnv where
  shardFs := fun _ => none
  repoEntries := [{ repo_name := "o/r", star_count := 2000 }]
  prPages := fun n =>
    if n = "o/r" then [some [{ number := 1, merged_at := some "m" }]] else []
  commitsOf := fun n k =>
    if n = "o/r" ∧ k = 1 then [{ sha := "s1" }] else []
  filesOf := fun _ _ => []
  reviewsOf := fun _ _ => []
  reviewCommentsOf := fun _ _ => []
  commitDetails := fun _ _ => none
  contentAt := fun _ _ _ => none

/-- Witness for C6: the crawl completes `o/r`, and by the completion
theorem this is backed by a pull request with a non-empty commit
listing. -/
theorem crawl_completion_witness :
    "o/r" ∈ (crawl_language crawlWitnessEnv 1 none).processed ∧
    completionEvidence crawlWitnessEnv none "o/r" := by
  have hmem : "o/r" ∈ (crawl_language crawlWitnessEnv 1 none).processed := by
    decide
  refine ⟨hmem, ?_⟩
  rcases (crawl_completion crawlWitnessEnv 1 none "o/r" hmem).1 with h | h
  · exact absurd h (by decide)
  · exact h
